import Mathlib

/-!
Verification of the FlatWiki trusted-artifact pipeline.

This file shallowly embeds the core of the repository:

* `src/lib/secretCrypto.ts` — the `enc:v1:` secret envelope (encrypt/decrypt);
* `src/lib/textDiff.ts` (backup module) — the encrypted backup pipeline
  (single-flight job control, status/progress state machine, artifact
  name validation, delete);
* `src/lib/attachmentStore.ts` — the attachment ingestion pipeline
  (antivirus policy, finalize-from-quarantine gates).

Modelling conventions:

* JavaScript strings are modelled as `List Char` (`JSStr`), byte buffers as
  `List Nat` (`Bytes`, each entry `< 256` where it matters).
* `node:crypto` AES-256-GCM is modelled as an abstract AEAD together with a
  contract (`GcmContract`) stating the functional properties of an ideal
  authenticated cipher; an executable ideal instance (`gcmIdeal`) witnesses
  that the contract is satisfiable.
* Filesystem state is explicit (lists of paths resp. path/content pairs);
  asynchronous control flow is embedded as explicit state passing, and the
  process-global singletons of the backup module become an explicit
  `GlobalState` value.
-/

/-- JavaScript string, modelled as its list of unicode scalar values. -/
abbrev JSStr := List Char

/-- Byte buffer, modelled as a list of naturals (each `< 256` where relevant). -/
abbrev Bytes := List Nat

/-- All entries of a byte buffer are actual bytes. -/
def ValidBytes (bs : Bytes) : Prop := ∀ b ∈ bs, b < 256

instance : DecidablePred ValidBytes := fun bs =>
  inferInstanceAs (Decidable (∀ b ∈ bs, b < 256))

/-- JavaScript `String.prototype.trim`, restricted to ASCII whitespace
(the only whitespace that occurs in the inputs considered here). -/
def jsTrim (s : JSStr) : JSStr :=
  ((s.dropWhile Char.isWhitespace).reverse.dropWhile Char.isWhitespace).reverse

/-- POSIX `path.basename`: strip trailing slashes, then keep the part after
the last remaining slash. -/
def basename (s : JSStr) : JSStr :=
  let t := (s.reverse.dropWhile (· = '/')).reverse
  (t.reverse.takeWhile (· ≠ '/')).reverse

/-- `path.join dir name` for a plain (slash-free, non-dot) file name:
plain concatenation with a single separator. -/
def joinPath (dir name : JSStr) : JSStr := dir ++ '/' :: name

/-- JavaScript `payload.split "."` (single-character separator). -/
def splitOnDot : JSStr → List JSStr
  | [] => [[]]
  | c :: rest =>
    if c = '.' then [] :: splitOnDot rest
    else
      match splitOnDot rest with
      | [] => [[c]]
      | g :: gs => (c :: g) :: gs

theorem splitOnDot_ne_nil (s : JSStr) : splitOnDot s ≠ [] := by
  induction s with
  | nil => simp [splitOnDot]
  | cons c rest ih =>
    simp only [splitOnDot]
    split
    · simp
    · cases h : splitOnDot rest <;> simp

theorem splitOnDot_append_dot (a rest : JSStr) (ha : ∀ c ∈ a, c ≠ '.') :
    splitOnDot (a ++ '.' :: rest) = a :: splitOnDot rest := by
  induction a with
  | nil => simp [splitOnDot]
  | cons c a' ih =>
    have hc : c ≠ '.' := ha c (List.mem_cons_self c a')
    have ih' := ih (fun x hx => ha x (List.mem_cons_of_mem c hx))
    simp only [List.cons_append, splitOnDot, if_neg hc]
    rw [show a'.append ('.' :: rest) = a' ++ '.' :: rest from rfl, ih']

theorem splitOnDot_dotfree (a : JSStr) (ha : ∀ c ∈ a, c ≠ '.') :
    splitOnDot a = [a] := by
  induction a with
  | nil => simp [splitOnDot]
  | cons c a' ih =>
    have hc : c ≠ '.' := ha c (List.mem_cons_self c a')
    have ih' := ih (fun x hx => ha x (List.mem_cons_of_mem c hx))
    simp only [splitOnDot, if_neg hc, ih']

/-! ## Base64 (node `Buffer.toString "base64"` / `Buffer.from s "base64"`) -/

/-- The base64 alphabet, in index order. -/
def b64Chars : List Char :=
  "ABCDEFGHIJKLMNOPQRSTUVWXYZabcdefghijklmnopqrstuvwxyz0123456789+/".toList

/-- The base64 character of a 6-bit value. -/
def b64Char (n : Nat) : Char := b64Chars.getD n '?'

/-- The 6-bit value of a base64 character. -/
def b64Index (c : Char) : Nat := b64Chars.indexOf c

/-- Base64 encoding of a byte buffer, padding included (as produced by
`Buffer.toString "base64"`). -/
def asBase64 : Bytes → JSStr
  | [] => []
  | [a] => [b64Char (a / 4), b64Char (a % 4 * 16), '=', '=']
  | [a, b] => [b64Char (a / 4), b64Char (a % 4 * 16 + b / 16), b64Char (b % 16 * 4), '=']
  | a :: b :: c :: rest =>
    b64Char (a / 4) :: b64Char (a % 4 * 16 + b / 16) :: b64Char (b % 16 * 4 + c / 64) ::
      b64Char (c % 64) :: asBase64 rest

/-- Decode a stream of 6-bit values into bytes, four at a time (trailing
groups of two or three values come from padded input). -/
def b64DecodeQuads : List Nat → Bytes
  | a :: b :: c :: d :: rest =>
    (a * 4 + b / 16) :: (b % 16 * 16 + c / 4) :: (c % 4 * 64 + d) :: b64DecodeQuads rest
  | [a, b] => [a * 4 + b / 16]
  | [a, b, c] => [a * 4 + b / 16, b % 16 * 16 + c / 4]
  | _ => []

/-- Base64 decoding as done by `Buffer.from s "base64"`: characters outside
the alphabet (including padding) are skipped, the rest decode in groups. -/
def fromBase64 (s : JSStr) : Bytes :=
  b64DecodeQuads ((s.filter (fun c => c ∈ b64Chars)).map b64Index)

theorem b64Char_mem (n : Nat) (h : n < 64) : b64Char n ∈ b64Chars := by
  have hlen : b64Chars.length = 64 := by decide
  unfold b64Char
  rw [List.getD_eq_getElem b64Chars '?' (by omega)]
  exact List.getElem_mem _

theorem b64Index_b64Char_fin : ∀ n : Fin 64, b64Index (b64Char n.1) = n.1 := by decide

theorem b64Index_b64Char (n : Nat) (h : n < 64) : b64Index (b64Char n) = n :=
  b64Index_b64Char_fin ⟨n, h⟩

theorem eq_ne_mem_b64Chars : ('=' ∈ b64Chars) = False := by decide

theorem b64Char_ne_dot (n : Nat) (h : n < 64) : b64Char n ≠ '.' := by
  intro hcon
  have := b64Char_mem n h
  rw [hcon] at this
  exact absurd this (by decide)

theorem asBase64_dotfree (bs : Bytes) (h : ValidBytes bs) :
    ∀ c ∈ asBase64 bs, c ≠ '.' := by
  induction bs using asBase64.induct with
  | case1 => intro c hc; simp [asBase64] at hc
  | case2 a =>
    intro c hc
    have ha : a < 256 := h a (by simp)
    simp only [asBase64, List.mem_cons, List.not_mem_nil, or_false] at hc
    rcases hc with rfl | rfl | rfl | rfl
    · exact b64Char_ne_dot _ (by omega)
    · exact b64Char_ne_dot _ (by omega)
    · decide
    · decide
  | case3 a b =>
    intro c hc
    have ha : a < 256 := h a (by simp)
    have hb : b < 256 := h b (by simp)
    simp only [asBase64, List.mem_cons, List.not_mem_nil, or_false] at hc
    rcases hc with rfl | rfl | rfl | rfl
    · exact b64Char_ne_dot _ (by omega)
    · exact b64Char_ne_dot _ (by omega)
    · exact b64Char_ne_dot _ (by omega)
    · decide
  | case4 a b c rest ih =>
    intro x hx
    have ha : a < 256 := h a (by simp)
    have hb : b < 256 := h b (by simp)
    have hc : c < 256 := h c (by simp)
    have hrest : ValidBytes rest := fun y hy => h y (by simp [hy])
    simp only [asBase64, List.mem_cons] at hx
    rcases hx with rfl | rfl | rfl | rfl | hx
    · exact b64Char_ne_dot _ (by omega)
    · exact b64Char_ne_dot _ (by omega)
    · exact b64Char_ne_dot _ (by omega)
    · exact b64Char_ne_dot _ (by omega)
    · exact ih hrest x hx

/-- The 6-bit values underlying `asBase64` (padding stripped). -/
def b64Vals : Bytes → List Nat
  | [] => []
  | [a] => [a / 4, a % 4 * 16]
  | [a, b] => [a / 4, a % 4 * 16 + b / 16, b % 16 * 4]
  | a :: b :: c :: rest =>
    a / 4 :: (a % 4 * 16 + b / 16) :: (b % 16 * 4 + c / 64) :: c % 64 :: b64Vals rest

theorem filter_map_asBase64 (bs : Bytes) (h : ValidBytes bs) :
    ((asBase64 bs).filter (fun c => c ∈ b64Chars)).map b64Index = b64Vals bs := by
  induction bs using asBase64.induct with
  | case1 => simp [asBase64, b64Vals]
  | case2 a =>
    have ha : a < 256 := h a (by simp)
    have m1 : b64Char (a / 4) ∈ b64Chars := b64Char_mem _ (by omega)
    have m2 : b64Char (a % 4 * 16) ∈ b64Chars := b64Char_mem _ (by omega)
    have mpad : ¬ ('=' ∈ b64Chars) := by decide
    simp only [asBase64, b64Vals, List.filter, List.map, decide_eq_true m1, decide_eq_true m2,
      decide_eq_false mpad]
    rw [b64Index_b64Char _ (by omega), b64Index_b64Char _ (by omega)]
  | case3 a b =>
    have ha : a < 256 := h a (by simp)
    have hb : b < 256 := h b (by simp)
    have m1 : b64Char (a / 4) ∈ b64Chars := b64Char_mem _ (by omega)
    have m2 : b64Char (a % 4 * 16 + b / 16) ∈ b64Chars := b64Char_mem _ (by omega)
    have m3 : b64Char (b % 16 * 4) ∈ b64Chars := b64Char_mem _ (by omega)
    have mpad : ¬ ('=' ∈ b64Chars) := by decide
    simp only [asBase64, b64Vals, List.filter, List.map, decide_eq_true m1, decide_eq_true m2,
      decide_eq_true m3, decide_eq_false mpad]
    rw [b64Index_b64Char _ (by omega), b64Index_b64Char _ (by omega),
      b64Index_b64Char _ (by omega)]
  | case4 a b c rest ih =>
    have ha : a < 256 := h a (by simp)
    have hb : b < 256 := h b (by simp)
    have hc : c < 256 := h c (by simp)
    have hrest : ValidBytes rest := fun y hy => h y (by simp [hy])
    have m1 : b64Char (a / 4) ∈ b64Chars := b64Char_mem _ (by omega)
    have m2 : b64Char (a % 4 * 16 + b / 16) ∈ b64Chars := b64Char_mem _ (by omega)
    have m3 : b64Char (b % 16 * 4 + c / 64) ∈ b64Chars := b64Char_mem _ (by omega)
    have m4 : b64Char (c % 64) ∈ b64Chars := b64Char_mem _ (by omega)
    simp only [asBase64, b64Vals, List.filter, List.map, decide_eq_true m1, decide_eq_true m2,
      decide_eq_true m3, decide_eq_true m4]
    rw [b64Index_b64Char _ (by omega), b64Index_b64Char _ (by omega),
      b64Index_b64Char _ (by omega), b64Index_b64Char _ (by omega), ih hrest]

theorem b64DecodeQuads_b64Vals (bs : Bytes) (h : ValidBytes bs) :
    b64DecodeQuads (b64Vals bs) = bs := by
  induction bs using b64Vals.induct with
  | case1 => simp [b64Vals, b64DecodeQuads]
  | case2 a =>
    have ha : a < 256 := h a (by simp)
    simp only [b64Vals, b64DecodeQuads]
    congr 1
    omega
  | case3 a b =>
    have ha : a < 256 := h a (by simp)
    have hb : b < 256 := h b (by simp)
    simp only [b64Vals, b64DecodeQuads]
    congr 1
    · omega
    · congr 1
      omega
  | case4 a b c rest ih =>
    have ha : a < 256 := h a (by simp)
    have hb : b < 256 := h b (by simp)
    have hc : c < 256 := h c (by simp)
    have hrest : ValidBytes rest := fun y hy => h y (by simp [hy])
    simp only [b64Vals, b64DecodeQuads, ih hrest]
    congr 1
    · omega
    · congr 1
      · omega
      · congr 1
        omega

/-- Decoding inverts encoding on genuine byte buffers. -/
theorem fromBase64_asBase64 (bs : Bytes) (h : ValidBytes bs) :
    fromBase64 (asBase64 bs) = bs := by
  rw [fromBase64, filter_map_asBase64 bs h, b64DecodeQuads_b64Vals bs h]

theorem asBase64_eq_nil_iff (bs : Bytes) : asBase64 bs = [] ↔ bs = [] := by
  induction bs using asBase64.induct with
  | case1 => simp [asBase64]
  | case2 a => simp [asBase64]
  | case3 a b => simp [asBase64]
  | case4 a b c rest ih => simp [asBase64]

/-- `fromBase64` only ever produces genuine bytes. -/
theorem fromBase64_valid (s : JSStr) : ValidBytes (fromBase64 s) := by
  have hvals : ∀ v ∈ (s.filter (fun c => c ∈ b64Chars)).map b64Index, v < 64 := by
    intro v hv
    rcases List.mem_map.mp hv with ⟨c, hc, rfl⟩
    have hmem : c ∈ b64Chars := by
      have := List.of_mem_filter hc
      exact of_decide_eq_true this
    have : b64Chars.indexOf c < b64Chars.length := List.indexOf_lt_length.mpr hmem
    simpa [b64Index] using lt_of_lt_of_le this (by decide)
  rw [fromBase64]
  generalize (s.filter (fun c => c ∈ b64Chars)).map b64Index = vs at hvals
  induction vs using b64DecodeQuads.induct with
  | case1 a b c d rest ih =>
    have ha : a < 64 := hvals a (by simp)
    have hb : b < 64 := hvals b (by simp)
    have hc : c < 64 := hvals c (by simp)
    have hd : d < 64 := hvals d (by simp)
    intro x hx
    simp only [b64DecodeQuads, List.mem_cons] at hx
    rcases hx with rfl | rfl | rfl | hx
    · omega
    · omega
    · omega
    · exact ih (fun y hy => hvals y (by simp [hy])) x hx
  | case2 a b =>
    have ha : a < 64 := hvals a (by simp)
    have hb : b < 64 := hvals b (by simp)
    intro x hx
    simp only [b64DecodeQuads, List.mem_cons, List.not_mem_nil, or_false] at hx
    subst hx
    omega
  | case3 a b c =>
    have ha : a < 64 := hvals a (by simp)
    have hb : b < 64 := hvals b (by simp)
    have hc : c < 64 := hvals c (by simp)
    intro x hx
    simp only [b64DecodeQuads, List.mem_cons, List.not_mem_nil, or_false] at hx
    rcases hx with rfl | rfl
    · omega
    · omega
  | case4 vs h1 h2 h3 =>
    intro x hx
    simp only [b64DecodeQuads] at hx
    exact absurd hx (List.not_mem_nil x)

/-! ## UTF-8 (node `Buffer.from s "utf8"` / `buffer.toString "utf8"`) -/

/-- UTF-8 encoding of one unicode scalar value. -/
def utf8EncodeChar (n : Nat) : Bytes :=
  if n < 0x80 then [n]
  else if n < 0x800 then [0xC0 + n / 64, 0x80 + n % 64]
  else if n < 0x10000 then [0xE0 + n / 4096, 0x80 + n / 64 % 64, 0x80 + n % 64]
  else [0xF0 + n / 0x40000, 0x80 + n / 4096 % 64, 0x80 + n / 64 % 64, 0x80 + n % 64]

/-- `Buffer.from s "utf8"`: the UTF-8 bytes of a string. -/
def strToBytes (s : JSStr) : Bytes := s.flatMap (fun c => utf8EncodeChar c.toNat)

/-- Fuel-driven UTF-8 decoder (the fuel is an upper bound on the number of
characters still to decode; `bytesToStr` supplies the buffer length). -/
def bytesToStrF : Nat -> Bytes -> JSStr
  | 0, _ => []
  | _ + 1, [] => []
  | fuel + 1, b :: rest =>
    if b < 0x80 then Char.ofNat b :: bytesToStrF fuel rest
    else if b < 0xE0 then
      match rest with
      | b2 :: r => Char.ofNat ((b - 0xC0) * 64 + (b2 - 0x80)) :: bytesToStrF fuel r
      | [] => []
    else if b < 0xF0 then
      match rest with
      | b2 :: b3 :: r =>
        Char.ofNat ((b - 0xE0) * 4096 + (b2 - 0x80) * 64 + (b3 - 0x80)) :: bytesToStrF fuel r
      | _ => []
    else
      match rest with
      | b2 :: b3 :: b4 :: r =>
        Char.ofNat ((b - 0xF0) * 0x40000 + (b2 - 0x80) * 4096 + (b3 - 0x80) * 64 + (b4 - 0x80)) ::
          bytesToStrF fuel r
      | _ => []

/-- `buffer.toString "utf8"`, restricted to well-formed encodings (which is
all this development ever decodes). -/
def bytesToStr (bs : Bytes) : JSStr := bytesToStrF bs.length bs

theorem utf8EncodeChar_valid (n : Nat) (h : n < 0x110000) :
    ValidBytes (utf8EncodeChar n) := by
  intro b hb
  unfold utf8EncodeChar at hb
  split at hb
  · simp at hb; omega
  · split at hb
    · simp at hb
      rcases hb with rfl | rfl <;> omega
    · split at hb
      · simp at hb
        rcases hb with rfl | rfl | rfl <;> omega
      · simp at hb
        rcases hb with rfl | rfl | rfl | rfl <;> omega

theorem utf8EncodeChar_ne_nil (n : Nat) : utf8EncodeChar n ≠ [] := by
  unfold utf8EncodeChar
  split
  · simp
  · split
    · simp
    · split <;> simp


theorem char_toNat_lt (c : Char) : c.toNat < 0x110000 := by
  rcases c.valid with h | ⟨-, h⟩
  · have h2 : c.val.toNat < (0xd800 : UInt32).toNat := h
    have h3 : (0xd800 : UInt32).toNat = 0xd800 := by decide
    simp only [Char.toNat]
    omega
  · have h2 : c.val.toNat < (0x110000 : UInt32).toNat := h
    have h3 : (0x110000 : UInt32).toNat = 0x110000 := by decide
    simp only [Char.toNat]
    omega

theorem bytesToStrF_congr : ∀ (f f' : Nat) (bs : Bytes), bs.length ≤ f → bs.length ≤ f' →
    bytesToStrF f bs = bytesToStrF f' bs := by
  intro f
  induction f with
  | zero =>
    intro f' bs hf hf'
    have : bs = [] := List.length_eq_zero.mp (Nat.le_zero.mp hf)
    subst this
    cases f' <;> simp [bytesToStrF]
  | succ f ih =>
    intro f' bs hf hf'
    cases bs with
    | nil => cases f' <;> simp [bytesToStrF]
    | cons b rest =>
      cases f' with
      | zero => simp at hf'
      | succ f'' =>
        simp only [List.length_cons, Nat.succ_le_succ_iff] at hf hf'
        simp only [bytesToStrF]
        by_cases h1 : b < 0x80
        · simp only [if_pos h1, ih f'' rest hf hf']
        · simp only [if_neg h1]
          by_cases h2 : b < 0xE0
          · simp only [if_pos h2]
            cases rest with
            | nil => rfl
            | cons b2 r =>
              simp only [List.length_cons] at hf hf'
              dsimp only
              rw [ih f'' r (by omega) (by omega)]
          · simp only [if_neg h2]
            by_cases h3 : b < 0xF0
            · simp only [if_pos h3]
              cases rest with
              | nil => rfl
              | cons b2 r2 =>
                cases r2 with
                | nil => rfl
                | cons b3 r =>
                  simp only [List.length_cons] at hf hf'
                  dsimp only
                  rw [ih f'' r (by omega) (by omega)]
            · simp only [if_neg h3]
              cases rest with
              | nil => rfl
              | cons b2 r2 =>
                cases r2 with
                | nil => rfl
                | cons b3 r3 =>
                  cases r3 with
                  | nil => rfl
                  | cons b4 r =>
                    simp only [List.length_cons] at hf hf'
                    dsimp only
                    rw [ih f'' r (by omega) (by omega)]

theorem bytesToStr_encode_cons (n : Nat) (h : n < 0x110000) (rest : Bytes) :
    bytesToStr (utf8EncodeChar n ++ rest) = Char.ofNat n :: bytesToStr rest := by
  unfold bytesToStr utf8EncodeChar
  split
  · next h1 =>
    simp only [List.append_eq, List.cons_append, List.nil_append, List.length_cons,
      bytesToStrF, if_pos h1]
  · next h1 =>
    split
    · next h2 =>
      have e1 : ¬ (0xC0 + n / 64 < 0x80) := by omega
      have e2 : 0xC0 + n / 64 < 0xE0 := by omega
      simp only [List.append_eq, List.cons_append, List.nil_append, List.length_cons,
        bytesToStrF, if_neg e1, if_pos e2]
      rw [bytesToStrF_congr (rest.length + 1) rest.length rest (by omega) (by omega)]
      have hval : (0xC0 + n / 64 - 0xC0) * 64 + (0x80 + n % 64 - 0x80) = n := by omega
      rw [hval]
    · next h2 =>
      split
      · next h3 =>
        have e1 : ¬ (0xE0 + n / 4096 < 0x80) := by omega
        have e2 : ¬ (0xE0 + n / 4096 < 0xE0) := by omega
        have e3 : 0xE0 + n / 4096 < 0xF0 := by omega
        simp only [List.append_eq, List.cons_append, List.nil_append, List.length_cons,
          bytesToStrF, if_neg e1, if_neg e2, if_pos e3]
        rw [bytesToStrF_congr (rest.length + 1 + 1) rest.length rest (by omega) (by omega)]
        have hval : (0xE0 + n / 4096 - 0xE0) * 4096 + (0x80 + n / 64 % 64 - 0x80) * 64 +
            (0x80 + n % 64 - 0x80) = n := by omega
        rw [hval]
      · next h3 =>
        have e1 : ¬ (0xF0 + n / 0x40000 < 0x80) := by omega
        have e2 : ¬ (0xF0 + n / 0x40000 < 0xE0) := by omega
        have e3 : ¬ (0xF0 + n / 0x40000 < 0xF0) := by omega
        simp only [List.append_eq, List.cons_append, List.nil_append, List.length_cons,
          bytesToStrF, if_neg e1, if_neg e2, if_neg e3]
        rw [bytesToStrF_congr (rest.length + 1 + 1 + 1) rest.length rest (by omega) (by omega)]
        have hval : (0xF0 + n / 0x40000 - 0xF0) * 0x40000 + (0x80 + n / 4096 % 64 - 0x80) * 4096 +
            (0x80 + n / 64 % 64 - 0x80) * 64 + (0x80 + n % 64 - 0x80) = n := by omega
        rw [hval]

/-- Decoding inverts encoding: `buffer.toString "utf8"` recovers the string
that `Buffer.from s "utf8"` encoded. -/
theorem bytesToStr_strToBytes (s : JSStr) : bytesToStr (strToBytes s) = s := by
  induction s with
  | nil => simp [strToBytes, bytesToStr, bytesToStrF]
  | cons c rest ih =>
    have henc : strToBytes (c :: rest) = utf8EncodeChar c.toNat ++ strToBytes rest := by
      simp [strToBytes]
    rw [henc, bytesToStr_encode_cons c.toNat (char_toNat_lt c) (strToBytes rest), ih,
      Char.ofNat_toNat]

theorem strToBytes_valid (s : JSStr) : ValidBytes (strToBytes s) := by
  intro b hb
  rcases List.mem_flatMap.mp hb with ⟨c, _, hc⟩
  exact utf8EncodeChar_valid c.toNat (char_toNat_lt c) b hc

theorem strToBytes_eq_nil_iff (s : JSStr) : strToBytes s = [] ↔ s = [] := by
  cases s with
  | nil => simp [strToBytes]
  | cons c rest =>
    simp only [strToBytes, List.flatMap_cons, List.append_eq_nil]
    constructor
    · rintro ⟨h1, -⟩
      exact absurd h1 (utf8EncodeChar_ne_nil c.toNat)
    · intro h
      exact absurd h (by simp)

/-! ## AES-256-GCM, modelled as an abstract AEAD

`node:crypto`'s `createCipheriv "aes-256-gcm"` / `createDecipheriv` pair is
a library primitive; it is embedded as an abstract authenticated cipher
together with the functional contract an ideal AEAD provides.  `enc key iv
plaintext` returns `(ciphertext, tag)`; `dec key iv tag ciphertext` returns
the plaintext exactly when the tag verifies (the `try/catch` around
`decipher.final` in the source maps a failed verification to `none`). -/
structure AEAD where
  enc : Nat → Bytes → Bytes → Bytes × Bytes
  dec : Nat → Bytes → Bytes → Bytes → Option Bytes

/-- The contract of an ideal authenticated cipher, as relied on by the
source: decryption inverts encryption; only genuine encryptions decrypt;
the tag binds key, iv and plaintext; ciphertext length equals plaintext
length; tags are nonempty; encryption of bytes yields bytes. -/
structure GcmContract (A : AEAD) : Prop where
  correct : ∀ k iv pt, A.dec k iv (A.enc k iv pt).2 (A.enc k iv pt).1 = some pt
  auth : ∀ k iv tag ct pt, A.dec k iv tag ct = some pt → A.enc k iv pt = (ct, tag)
  ctInj : ∀ k iv p p', ValidBytes p → ValidBytes p' →
    (A.enc k iv p).1 = (A.enc k iv p').1 → p = p'
  tagInj : ∀ k k' iv iv' p p', ValidBytes iv → ValidBytes iv' → ValidBytes p → ValidBytes p' →
    (A.enc k iv p).2 = (A.enc k' iv' p').2 → k = k' ∧ iv = iv' ∧ p = p'
  ctLen : ∀ k iv pt, (A.enc k iv pt).1.length = pt.length
  tagNE : ∀ k iv pt, (A.enc k iv pt).2 ≠ []
  encBytes : ∀ k iv pt, ValidBytes iv → ValidBytes pt →
    ValidBytes (A.enc k iv pt).1 ∧ ValidBytes (A.enc k iv pt).2
  decValid : ∀ k iv tag ct pt, ValidBytes ct → A.dec k iv tag ct = some pt → ValidBytes pt

/-! ### An executable ideal instance witnessing the contract -/

/-- Bijective base-256 numeral of a byte list (injective on byte lists). -/
def byteCode : Bytes → Nat
  | [] => 0
  | b :: rest => b + 1 + 256 * byteCode rest

theorem byteCode_inj : ∀ (xs ys : Bytes), ValidBytes xs → ValidBytes ys →
    byteCode xs = byteCode ys → xs = ys := by
  intro xs
  induction xs with
  | nil =>
    intro ys _ hys h
    cases ys with
    | nil => rfl
    | cons y r =>
      exfalso
      simp only [byteCode] at h
      omega
  | cons x xr ih =>
    intro ys hxs hys h
    cases ys with
    | nil =>
      exfalso
      simp only [byteCode] at h
      omega
    | cons y yr =>
      simp only [byteCode] at h
      have hx : x < 256 := hxs x (by simp)
      have hy : y < 256 := hys y (by simp)
      have hxy : x = y ∧ byteCode xr = byteCode yr := by
        constructor <;> omega
      rw [hxy.1, ih yr (fun b hb => hxs b (by simp [hb])) (fun b hb => hys b (by simp [hb])) hxy.2]

/-- Little-endian base-256 digits of a natural (fuel-driven so that it is
structural and kernel-reducible). -/
def natToBytesF : Nat → Nat → Bytes
  | 0, _ => []
  | _ + 1, 0 => []
  | fuel + 1, n + 1 => (n + 1) % 256 :: natToBytesF fuel ((n + 1) / 256)

def natToBytes (n : Nat) : Bytes := natToBytesF n n

def bytesToNat : Bytes → Nat
  | [] => 0
  | b :: rest => b + 256 * bytesToNat rest

theorem bytesToNat_natToBytesF : ∀ (fuel n : Nat), n ≤ fuel →
    bytesToNat (natToBytesF fuel n) = n := by
  intro fuel
  induction fuel with
  | zero =>
    intro n hn
    have : n = 0 := Nat.le_zero.mp hn
    subst this
    simp [natToBytesF, bytesToNat]
  | succ fuel ih =>
    intro n hn
    cases n with
    | zero => simp [natToBytesF, bytesToNat]
    | succ m =>
      simp only [natToBytesF, bytesToNat]
      rw [ih ((m + 1) / 256) (by omega)]
      omega

theorem bytesToNat_natToBytes (n : Nat) : bytesToNat (natToBytes n) = n :=
  bytesToNat_natToBytesF n n le_rfl

theorem natToBytes_inj (a b : Nat) (h : natToBytes a = natToBytes b) : a = b := by
  have := bytesToNat_natToBytes a
  rw [h, bytesToNat_natToBytes] at this
  omega

theorem natToBytesF_valid : ∀ (fuel n : Nat), ValidBytes (natToBytesF fuel n) := by
  intro fuel
  induction fuel with
  | zero => intro n b hb; simp [natToBytesF] at hb
  | succ fuel ih =>
    intro n b hb
    cases n with
    | zero => simp [natToBytesF] at hb
    | succ m =>
      simp only [natToBytesF, List.mem_cons] at hb
      rcases hb with rfl | hb
      · omega
      · exact ih ((m + 1) / 256) b hb

theorem natToBytes_valid (n : Nat) : ValidBytes (natToBytes n) :=
  natToBytesF_valid n n

theorem natToBytes_succ_ne_nil (n : Nat) : natToBytes (n + 1) ≠ [] := by
  simp [natToBytes, natToBytesF]

/-- Tag of the ideal instance: an injective (on byte lists) numeral of the
triple (key, iv, ciphertext), never empty. -/
def idealTag (k : Nat) (iv ct : Bytes) : Bytes :=
  natToBytes (Nat.pair k (Nat.pair (byteCode iv) (byteCode ct)) + 1)

/-- An executable ideal AEAD: the identity cipher together with a perfect
tag. It witnesses that `GcmContract` is satisfiable. -/
def gcmIdeal : AEAD where
  enc := fun k iv pt => (pt, idealTag k iv pt)
  dec := fun k iv tag ct => if tag = idealTag k iv ct then some ct else none

theorem gcmIdeal_contract : GcmContract gcmIdeal := by
  constructor
  · intro k iv pt
    simp [gcmIdeal]
  · intro k iv tag ct pt hdec
    simp only [gcmIdeal] at hdec ⊢
    split at hdec
    · next htag =>
      cases hdec
      rw [htag]
    · cases hdec
  · intro k iv p p' _ _ h
    simpa [gcmIdeal] using h
  · intro k k' iv iv' p p' hiv hiv' hp hp' h
    simp only [gcmIdeal, idealTag] at h
    have hpair := natToBytes_inj _ _ h
    have h2 : Nat.pair k (Nat.pair (byteCode iv) (byteCode p)) =
        Nat.pair k' (Nat.pair (byteCode iv') (byteCode p')) := by omega
    rw [Nat.pair_eq_pair] at h2
    obtain ⟨hk, h3⟩ := h2
    rw [Nat.pair_eq_pair] at h3
    exact ⟨hk, byteCode_inj _ _ hiv hiv' h3.1, byteCode_inj _ _ hp hp' h3.2⟩
  · intro k iv pt
    simp [gcmIdeal]
  · intro k iv pt
    simpa [gcmIdeal, idealTag] using natToBytes_succ_ne_nil _
  · intro k iv pt _ hpt
    exact ⟨hpt, fun b hb => natToBytes_valid _ b hb⟩
  · intro k iv tag ct pt hct hdec
    simp only [gcmIdeal] at hdec
    split at hdec
    · cases hdec; exact hct
    · cases hdec

/-! ## `src/lib/secretCrypto.ts` -/

/-- The `SECRET_PREFIX` constant `"enc:v1:"` of `secretCrypto.ts`. -/
def SECRET_PREFIX_V1 : JSStr := "enc:v1:".toList

/-- The envelope template literal of `encryptSecret`:
`prefix + asBase64 iv + "." + asBase64 tag + "." + asBase64 data`. -/
def mkEnvelope (iv tag ct : Bytes) : JSStr :=
  SECRET_PREFIX_V1 ++ asBase64 iv ++ '.' :: (asBase64 tag ++ '.' :: asBase64 ct)

/-- `encryptSecret` of `secretCrypto.ts`.  `key` is
`config.contentEncryptionKey` (absent when unset), `iv` the 12 random bytes
drawn by `randomBytes 12`, made explicit. Returns `null` without a key,
passes the empty string through, and otherwise encrypts under the
configured key. -/
def encryptSecret (A : AEAD) (key : Option Nat) (iv : Bytes) (plaintext : JSStr) :
    Option JSStr :=
  match key with
  | none => none
  | some k =>
    if plaintext.length < 1 then some []
    else
      let p := A.enc k iv (strToBytes plaintext)
      some (mkEnvelope iv p.2 p.1)

/-- `decryptSecret` of `secretCrypto.ts`: empty input passes through,
values without the `enc:v1:` marker are returned verbatim (legacy
plaintext), otherwise the payload is split at `"."` into iv/tag/data
(destructuring drops any extra parts, and missing or empty parts are
rejected), each part is base64-decoded and a single decryption under the
configured key is attempted; the `try/catch` maps any failure to `null`. -/
def decryptSecret (A : AEAD) (key : Option Nat) (value : JSStr) : Option JSStr :=
  if value.length < 1 then some []
  else if ¬ (SECRET_PREFIX_V1.isPrefixOf value) then some value
  else
    match key with
    | none => none
    | some k =>
      let payload := value.drop SECRET_PREFIX_V1.length
      let parts := splitOnDot payload
      let ivB := parts.getD 0 []
      let tagB := parts.getD 1 []
      let dataB := parts.getD 2 []
      if ivB.length < 1 ∨ tagB.length < 1 ∨ dataB.length < 1 then none
      else
        match A.dec k (fromBase64 ivB) (fromBase64 tagB) (fromBase64 dataB) with
        | some pt => some (bytesToStr pt)
        | none => none

theorem mkEnvelope_parse (A : AEAD) (k : Nat) (iv tag ct : Bytes)
    (hiv : ValidBytes iv) (htag : ValidBytes tag) (hct : ValidBytes ct)
    (hivne : iv ≠ []) (htagne : tag ≠ []) (hctne : ct ≠ []) :
    decryptSecret A (some k) (mkEnvelope iv tag ct) =
      match A.dec k iv tag ct with
      | some pt => some (bytesToStr pt)
      | none => none := by
  have hlen : ¬ ((mkEnvelope iv tag ct).length < 1) := by
    simp [mkEnvelope, SECRET_PREFIX_V1]
  have hpre : SECRET_PREFIX_V1.isPrefixOf (mkEnvelope iv tag ct) = true := by
    rw [ List.isPrefixOf_iff_prefix]
    exact ⟨asBase64 iv ++ '.' :: (asBase64 tag ++ '.' :: asBase64 ct), rfl⟩
  have hdrop : (mkEnvelope iv tag ct).drop SECRET_PREFIX_V1.length =
      asBase64 iv ++ '.' :: (asBase64 tag ++ '.' :: asBase64 ct) := by
    rw [mkEnvelope]
    exact List.drop_left _ _
  have hsplit : splitOnDot ((mkEnvelope iv tag ct).drop SECRET_PREFIX_V1.length) =
      [asBase64 iv, asBase64 tag, asBase64 ct] := by
    rw [hdrop, splitOnDot_append_dot _ _ (asBase64_dotfree iv hiv),
      splitOnDot_append_dot _ _ (asBase64_dotfree tag htag),
      splitOnDot_dotfree _ (asBase64_dotfree ct hct)]
  have hivB : ¬ ((asBase64 iv).length < 1) := by
    rw [Nat.lt_one_iff, List.length_eq_zero, asBase64_eq_nil_iff]
    exact hivne
  have htagB : ¬ ((asBase64 tag).length < 1) := by
    rw [Nat.lt_one_iff, List.length_eq_zero, asBase64_eq_nil_iff]
    exact htagne
  have hctB : ¬ ((asBase64 ct).length < 1) := by
    rw [Nat.lt_one_iff, List.length_eq_zero, asBase64_eq_nil_iff]
    exact hctne
  rw [decryptSecret, if_neg hlen, if_neg (by simp [hpre])]
  simp only [hsplit, List.getD_cons_zero, List.getD_cons_succ]
  rw [if_neg (by push_neg; exact ⟨Nat.not_lt.mp hivB, Nat.not_lt.mp htagB, Nat.not_lt.mp hctB⟩)]
  rw [fromBase64_asBase64 iv hiv, fromBase64_asBase64 tag htag, fromBase64_asBase64 ct hct]

theorem enc_fst_ne_nil (A : AEAD) (hA : GcmContract A) (k : Nat) (iv : Bytes) (s : JSStr)
    (hs : s ≠ []) : (A.enc k iv (strToBytes s)).1 ≠ [] := by
  intro hnil
  have hlen := hA.ctLen k iv (strToBytes s)
  rw [hnil] at hlen
  simp only [List.length_nil] at hlen
  exact hs ((strToBytes_eq_nil_iff s).mp (List.length_eq_zero.mp hlen.symm))

/-- Decryption under the key a value was encrypted with recovers it
(empty strings pass through on both sides). -/
theorem decryptSecret_encryptSecret_active (A : AEAD) (hA : GcmContract A) (k : Nat)
    (iv : Bytes) (s : JSStr) (hiv : ValidBytes iv) (hivne : iv ≠ []) :
    decryptSecret A (some k) ((encryptSecret A (some k) iv s).getD []) = some s := by
  by_cases hs : s = []
  · subst hs
    simp [encryptSecret, decryptSecret]
  · have hlen : ¬ (s.length < 1) := by
      rw [Nat.lt_one_iff, List.length_eq_zero]
      exact hs
    rw [encryptSecret]
    simp only [if_neg hlen, Option.getD_some]
    obtain ⟨hct, htag⟩ := hA.encBytes k iv (strToBytes s) hiv (strToBytes_valid s)
    rw [mkEnvelope_parse A k iv _ _ hiv htag hct hivne (hA.tagNE k iv (strToBytes s))
      (enc_fst_ne_nil A hA k iv s hs)]
    rw [hA.correct k iv (strToBytes s)]
    dsimp only
    rw [bytesToStr_strToBytes]

/-- Decryption under a key different from the one a value was encrypted
with fails closed. -/
theorem decryptSecret_encryptSecret_other (A : AEAD) (hA : GcmContract A) (k1 k2 : Nat)
    (hk : k1 ≠ k2) (iv : Bytes) (s : JSStr) (hiv : ValidBytes iv) (hivne : iv ≠ [])
    (hs : s ≠ []) :
    decryptSecret A (some k2) ((encryptSecret A (some k1) iv s).getD []) = none := by
  have hlen : ¬ (s.length < 1) := by
    rw [Nat.lt_one_iff, List.length_eq_zero]
    exact hs
  rw [encryptSecret]
  simp only [if_neg hlen, Option.getD_some]
  obtain ⟨hct, htag⟩ := hA.encBytes k1 iv (strToBytes s) hiv (strToBytes_valid s)
  rw [mkEnvelope_parse A k2 iv _ _ hiv htag hct hivne (hA.tagNE k1 iv (strToBytes s))
    (enc_fst_ne_nil A hA k1 iv s hs)]
  suffices hnone : A.dec k2 iv (A.enc k1 iv (strToBytes s)).2 (A.enc k1 iv (strToBytes s)).1 =
      none by
    rw [hnone]
  by_contra hcon
  obtain ⟨q, hq⟩ := Option.ne_none_iff_exists'.mp hcon
  have hauth := hA.auth _ _ _ _ _ hq
  have hqval : ValidBytes q := hA.decValid _ _ _ _ _ hct hq
  have htags : (A.enc k2 iv q).2 = (A.enc k1 iv (strToBytes s)).2 := by
    rw [hauth]
  exact hk ((hA.tagInj k2 k1 iv iv q (strToBytes s) hiv hiv hqval (strToBytes_valid s)
    htags).1.symm)

/-- `ys` is `xs` with one byte flipped: one position rewritten to a
different byte value. -/
def FlipOne (xs ys : Bytes) : Prop :=
  ∃ i x, i < xs.length ∧ x < 256 ∧ xs.getD i 0 ≠ x ∧ ys = xs.set i x

theorem FlipOne.valid {xs ys : Bytes} (h : FlipOne xs ys) (hxs : ValidBytes xs) :
    ValidBytes ys := by
  obtain ⟨i, x, -, hx, -, rfl⟩ := h
  intro b hb
  rcases List.mem_or_eq_of_mem_set hb with hb | rfl
  · exact hxs b hb
  · exact hx

theorem FlipOne.ne {xs ys : Bytes} (h : FlipOne xs ys) : ys ≠ xs := by
  obtain ⟨i, x, hi, -, hne, rfl⟩ := h
  intro hcon
  apply hne
  have h1 : (xs.set i x).getD i 0 = x := by
    rw [List.getD_eq_getElem _ _ (by simpa using hi)]
    exact List.getElem_set_self _
  rw [← h1, hcon]

theorem FlipOne.length {xs ys : Bytes} (h : FlipOne xs ys) : ys.length = xs.length := by
  obtain ⟨-, -, -, -, -, rfl⟩ := h
  exact List.length_set _ _ _

theorem FlipOne.ne_nil {xs ys : Bytes} (h : FlipOne xs ys) (hxs : xs ≠ []) : ys ≠ [] := by
  intro hcon
  apply hxs
  have := h.length
  rw [hcon] at this
  exact List.length_eq_zero.mp this.symm

/-- C1 (counterexample): a value encrypted under key 1 does NOT decrypt
once key 2 is active — `decryptSecret` never retries under a legacy key
(the source consults `config.contentEncryptionKey` exactly once and has no
legacy-key code path), so the claimed legacy-key fallback fails at this
concrete input. -/
theorem c1_no_legacy_retry_counterexample :
    (1 : Nat) ≠ 2 ∧
      decryptSecret gcmIdeal (some 2)
        ((encryptSecret gcmIdeal (some 1) [0, 1, 2, 3, 4, 5, 6, 7, 8, 9, 10, 11]
          ['g', 'e', 'h', 'e', 'i', 'm']).getD []) = none := by
  constructor
  · decide
  · decide

/-- C1 (amended): `decryptSecret` attempts decryption only under the single
configured content-encryption key: an envelope encrypted under a previously
active key K1 fails closed (`null`) once a different key K2 is active,
while `encryptSecret` always encrypts under the active key K2 (so a value
re-encrypted while K2 is active decrypts under K2). -/
theorem c1_single_key_decrypt (A : AEAD) (hA : GcmContract A) (k1 k2 : Nat) (hk : k1 ≠ k2)
    (iv iv2 : Bytes) (s : JSStr) (hiv : ValidBytes iv) (hivne : iv ≠ [])
    (hiv2 : ValidBytes iv2) (hiv2ne : iv2 ≠ []) (hs : s ≠ []) :
    decryptSecret A (some k2) ((encryptSecret A (some k1) iv s).getD []) = none ∧
      decryptSecret A (some k2) ((encryptSecret A (some k2) iv2 s).getD []) = some s :=
  ⟨decryptSecret_encryptSecret_other A hA k1 k2 hk iv s hiv hivne hs,
    decryptSecret_encryptSecret_active A hA k2 iv2 s hiv2 hiv2ne⟩

/-- C1 (amended, witness): instance of the amended claim at a concrete
pair of keys, iv and plaintext. -/
theorem c1_single_key_decrypt_witness :
    decryptSecret gcmIdeal (some 5)
        ((encryptSecret gcmIdeal (some 4) [9, 9, 9, 9, 9, 9, 9, 9, 9, 9, 9, 9]
          ['p', 'w']).getD []) = none ∧
      decryptSecret gcmIdeal (some 5)
        ((encryptSecret gcmIdeal (some 5) [8, 8, 8, 8, 8, 8, 8, 8, 8, 8, 8, 8]
          ['p', 'w']).getD []) = some ['p', 'w'] :=
  c1_single_key_decrypt gcmIdeal gcmIdeal_contract 4 5 (by decide)
    [9, 9, 9, 9, 9, 9, 9, 9, 9, 9, 9, 9] [8, 8, 8, 8, 8, 8, 8, 8, 8, 8, 8, 8]
    ['p', 'w'] (by decide) (by decide) (by decide) (by decide) (by decide)

/-- C2: for every plaintext string, decrypting the result of encrypting it
under the same active key returns the plaintext; the empty string encrypts
to the empty string (pass-through) and decrypts back to the empty string. -/
theorem c2_round_trip (A : AEAD) (hA : GcmContract A) (k : Nat) (iv : Bytes) (s : JSStr)
    (hiv : ValidBytes iv) (hivne : iv ≠ []) :
    decryptSecret A (some k) ((encryptSecret A (some k) iv s).getD []) = some s ∧
      encryptSecret A (some k) iv [] = some [] ∧
      decryptSecret A (some k) [] = some [] :=
  ⟨decryptSecret_encryptSecret_active A hA k iv s hiv hivne,
    by simp [encryptSecret], by simp [decryptSecret]⟩

/-- C2 (witness): round trip at a concrete key, iv and plaintext. -/
theorem c2_round_trip_witness :
    decryptSecret gcmIdeal (some 7)
        ((encryptSecret gcmIdeal (some 7) [0, 1, 2, 3, 4, 5, 6, 7, 8, 9, 10, 11]
          ['g', 'e', 'h', 'e', 'i', 'm']).getD []) = some ['g', 'e', 'h', 'e', 'i', 'm'] ∧
      encryptSecret gcmIdeal (some 7) [0, 1, 2, 3, 4, 5, 6, 7, 8, 9, 10, 11] [] = some [] ∧
      decryptSecret gcmIdeal (some 7) [] = some [] :=
  c2_round_trip gcmIdeal gcmIdeal_contract 7 [0, 1, 2, 3, 4, 5, 6, 7, 8, 9, 10, 11]
    ['g', 'e', 'h', 'e', 'i', 'm'] (by decide) (by decide)

/-- C3: flipping any single byte of the iv, tag, or ciphertext component of
an envelope produced by `encryptSecret` makes `decryptSecret` return
`null`; it never returns a different plaintext (and, being a total
function, the model never throws — the source maps every decryption
exception to `null` via `try/catch`). -/
theorem c3_flip_fails_closed (A : AEAD) (hA : GcmContract A) (k : Nat) (iv : Bytes)
    (s : JSStr) (iv' tag' ct' : Bytes) (hiv : ValidBytes iv) (hivne : iv ≠ [])
    (hs : s ≠ []) :
    (FlipOne iv iv' →
      decryptSecret A (some k)
        (mkEnvelope iv' (A.enc k iv (strToBytes s)).2 (A.enc k iv (strToBytes s)).1) =
        none) ∧
    (FlipOne (A.enc k iv (strToBytes s)).2 tag' →
      decryptSecret A (some k)
        (mkEnvelope iv tag' (A.enc k iv (strToBytes s)).1) = none) ∧
    (FlipOne (A.enc k iv (strToBytes s)).1 ct' →
      decryptSecret A (some k)
        (mkEnvelope iv (A.enc k iv (strToBytes s)).2 ct') = none) := by
  obtain ⟨hct, htag⟩ := hA.encBytes k iv (strToBytes s) hiv (strToBytes_valid s)
  have hptval : ValidBytes (strToBytes s) := strToBytes_valid s
  have htagne := hA.tagNE k iv (strToBytes s)
  have hctne := enc_fst_ne_nil A hA k iv s hs
  refine ⟨?_, ?_, ?_⟩
  · intro hflip
    rw [mkEnvelope_parse A k iv' _ _ (hflip.valid hiv) htag hct (hflip.ne_nil hivne)
      htagne hctne]
    suffices hnone : A.dec k iv' (A.enc k iv (strToBytes s)).2 (A.enc k iv (strToBytes s)).1 =
        none by
      rw [hnone]
    by_contra hcon
    obtain ⟨q, hq⟩ := Option.ne_none_iff_exists'.mp hcon
    have hauth := hA.auth _ _ _ _ _ hq
    have hqval : ValidBytes q := hA.decValid _ _ _ _ _ hct hq
    have htags : (A.enc k iv' q).2 = (A.enc k iv (strToBytes s)).2 := by rw [hauth]
    exact hflip.ne (hA.tagInj k k iv' iv q (strToBytes s) (hflip.valid hiv) hiv hqval
      hptval htags).2.1
  · intro hflip
    rw [mkEnvelope_parse A k iv _ _ hiv (hflip.valid htag) hct hivne
      (hflip.ne_nil htagne) hctne]
    suffices hnone : A.dec k iv tag' (A.enc k iv (strToBytes s)).1 = none by
      rw [hnone]
    by_contra hcon
    obtain ⟨q, hq⟩ := Option.ne_none_iff_exists'.mp hcon
    have hauth := hA.auth _ _ _ _ _ hq
    have hqval : ValidBytes q := hA.decValid _ _ _ _ _ hct hq
    have hcts : (A.enc k iv q).1 = (A.enc k iv (strToBytes s)).1 := by rw [hauth]
    have hqpt : q = strToBytes s := hA.ctInj k iv q (strToBytes s) hqval hptval hcts
    apply hflip.ne
    rw [hqpt] at hauth
    have h2 := congrArg Prod.snd hauth
    simpa using h2.symm
  · intro hflip
    rw [mkEnvelope_parse A k iv _ _ hiv htag (hflip.valid hct) hivne htagne
      (hflip.ne_nil hctne)]
    suffices hnone : A.dec k iv (A.enc k iv (strToBytes s)).2 ct' = none by
      rw [hnone]
    by_contra hcon
    obtain ⟨q, hq⟩ := Option.ne_none_iff_exists'.mp hcon
    have hauth := hA.auth _ _ _ _ _ hq
    have hqval : ValidBytes q := hA.decValid _ _ _ _ _ (hflip.valid hct) hq
    have htags : (A.enc k iv q).2 = (A.enc k iv (strToBytes s)).2 := by rw [hauth]
    have hqpt : q = strToBytes s :=
      (hA.tagInj k k iv iv q (strToBytes s) hiv hiv hqval hptval htags).2.2
    apply hflip.ne
    rw [hqpt] at hauth
    have := congrArg Prod.fst hauth
    simpa using this.symm

/-- C3 (witness): flipping the first iv byte, a tag byte, and a ciphertext
byte of a concrete envelope each yield `null`. -/
theorem c3_flip_fails_closed_witness :
    decryptSecret gcmIdeal (some 7)
        (mkEnvelope ([0, 1, 2, 3, 4, 5, 6, 7, 8, 9, 10, 11].set 0 201)
          (gcmIdeal.enc 7 [0, 1, 2, 3, 4, 5, 6, 7, 8, 9, 10, 11] (strToBytes ['h', 'i'])).2
          (gcmIdeal.enc 7 [0, 1, 2, 3, 4, 5, 6, 7, 8, 9, 10, 11] (strToBytes ['h', 'i'])).1) =
      none ∧
    decryptSecret gcmIdeal (some 7)
        (mkEnvelope [0, 1, 2, 3, 4, 5, 6, 7, 8, 9, 10, 11]
          ((gcmIdeal.enc 7 [0, 1, 2, 3, 4, 5, 6, 7, 8, 9, 10, 11]
            (strToBytes ['h', 'i'])).2.set 0 7)
          (gcmIdeal.enc 7 [0, 1, 2, 3, 4, 5, 6, 7, 8, 9, 10, 11] (strToBytes ['h', 'i'])).1) =
      none ∧
    decryptSecret gcmIdeal (some 7)
        (mkEnvelope [0, 1, 2, 3, 4, 5, 6, 7, 8, 9, 10, 11]
          (gcmIdeal.enc 7 [0, 1, 2, 3, 4, 5, 6, 7, 8, 9, 10, 11] (strToBytes ['h', 'i'])).2
          ((gcmIdeal.enc 7 [0, 1, 2, 3, 4, 5, 6, 7, 8, 9, 10, 11]
            (strToBytes ['h', 'i'])).1.set 0 42)) = none := by
  have h := c3_flip_fails_closed gcmIdeal gcmIdeal_contract 7
    [0, 1, 2, 3, 4, 5, 6, 7, 8, 9, 10, 11] ['h', 'i']
    ([0, 1, 2, 3, 4, 5, 6, 7, 8, 9, 10, 11].set 0 201)
    ((gcmIdeal.enc 7 [0, 1, 2, 3, 4, 5, 6, 7, 8, 9, 10, 11] (strToBytes ['h', 'i'])).2.set 0 7)
    ((gcmIdeal.enc 7 [0, 1, 2, 3, 4, 5, 6, 7, 8, 9, 10, 11] (strToBytes ['h', 'i'])).1.set 0 42)
    (by decide) (by decide) (by decide)
  exact ⟨h.1 ⟨0, 201, by decide, by decide, by decide, rfl⟩,
    h.2.1 ⟨0, 7, by decide, by decide, by decide, rfl⟩,
    h.2.2 ⟨0, 42, by decide, by decide, by decide, rfl⟩⟩

/-! ## `src/lib/textDiff.ts` — encrypted backup pipeline -/

/-- The `BackupPhase` union of the source. -/
inductive BackupPhase
  | idle
  | preparing
  | packing
  | encrypting
  | writing
  | done
  | error
deriving DecidableEq, Repr

/-- The `BackupStatus` record of the source (timestamps as abstract `Nat`
instants, `percent` stored clamped as the source keeps it). -/
structure BackupStatusM where
  running : Bool
  phase : BackupPhase
  message : String
  startedAt : Option Nat := none
  finishedAt : Option Nat := none
  percent : Nat
  processedFiles : Nat
  totalFiles : Nat
  archiveFileName : Option JSStr := none
  archiveSizeBytes : Option Nat := none
  errMsg : Option String := none
deriving DecidableEq

/-- `defaultStatus()` of the source. -/
def defaultStatus : BackupStatusM :=
  { running := false, phase := .idle, message := "Bereit", percent := 0,
    processedFiles := 0, totalFiles := 0 }

/-- `toSafePercent`: `Math.max(0, Math.min(100, Math.round(value)))`. -/
def toSafePercent (v : ℚ) : Nat := (max 0 (min 100 (round v))).toNat

/-- The `updateStatus` call sites of `runBackup` and its helpers, as data:
each constructor carries the dynamic values of one `updateStatus` patch. -/
inductive BackupUpd
  | prepare (totalFiles : Nat) (name : JSStr)
  | packing (processed totalFiles : Nat)
  | tarDone (totalFiles : Nat)
  | encrypting (processedBytes totalBytes : Nat)
  | writing (copied cipherTotal : Nat)
  | jobDone (name : JSStr) (size t : Nat)
  | jobError (msg : String) (t : Nat)

/-- Percent formula of a packing update:
`min (totalFiles > 0 ? 10 + processed/totalFiles*55 : 65) 65`. -/
def packVal (processed totalFiles : Nat) : ℚ :=
  min (if 0 < totalFiles then 10 + (processed : ℚ) / (totalFiles : ℚ) * 55 else 65) 65

/-- Percent formula of an encrypting update: `65 + min (pb/tb) 1 * 25`. -/
def encVal (processedBytes totalBytes : Nat) : ℚ :=
  65 + min ((processedBytes : ℚ) / (totalBytes : ℚ)) 1 * 25

/-- Percent formula of a writing update: `90 + min (c/ct) 1 * 8`. -/
def writeVal (copied cipherTotal : Nat) : ℚ :=
  90 + min ((copied : ℚ) / (cipherTotal : ℚ)) 1 * 8

/-- Apply one `updateStatus` patch, exactly as the corresponding call site
in the source patches the status object. -/
def applyUpd : BackupUpd → BackupStatusM → BackupStatusM
  | .prepare totalFiles name, s =>
    { s with
      phase := .preparing
      message := "Backup wird vorbereitet..."
      percent := toSafePercent 10
      totalFiles := totalFiles
      processedFiles := 0
      archiveFileName := some name }
  | .packing processed totalFiles, s =>
    { s with
      phase := .packing
      message := "Dateien werden gepackt..."
      processedFiles := min processed totalFiles
      percent := toSafePercent (packVal processed totalFiles) }
  | .tarDone totalFiles, s =>
    { s with
      phase := .packing
      message := "Packen abgeschlossen."
      processedFiles := totalFiles
      percent := toSafePercent 65 }
  | .encrypting pb tb, s =>
    { s with
      phase := .encrypting
      message := "Backup wird verschluesselt..."
      percent := toSafePercent (encVal pb tb) }
  | .writing c ct, s =>
    { s with
      phase := .writing
      message := "Backup-Datei wird geschrieben..."
      percent := toSafePercent (writeVal c ct) }
  | .jobDone name size t, s =>
    { s with
      running := false
      phase := .done
      message := "Backup erfolgreich erstellt."
      percent := toSafePercent 100
      finishedAt := some t
      archiveFileName := some name
      archiveSizeBytes := some size }
  | .jobError msg t, s =>
    { s with
      running := false
      phase := .error
      message := "Backup fehlgeschlagen."
      finishedAt := some t
      percent := toSafePercent 100
      errMsg := some msg }

/-- The percent value an update writes (all patches set `percent`). -/
def updPercent : BackupUpd → Nat
  | .prepare _ _ => toSafePercent 10
  | .packing p t => toSafePercent (packVal p t)
  | .tarDone _ => toSafePercent 65
  | .encrypting pb tb => toSafePercent (encVal pb tb)
  | .writing c ct => toSafePercent (writeVal c ct)
  | .jobDone _ _ _ => toSafePercent 100
  | .jobError _ _ => toSafePercent 100

/-- Terminal updates are the two that flip `running` to `false`. -/
def updTerminal : BackupUpd → Bool
  | .jobDone _ _ _ => true
  | .jobError _ _ => true
  | _ => false

/-- The sequence of statuses a job passes through, starting status
included. -/
def statusTrace (s : BackupStatusM) : List BackupUpd → List BackupStatusM
  | [] => [s]
  | u :: us => s :: statusTrace (applyUpd u s) us

/-- Running totals of a chunk-size sequence (the `processedBytes` /
`copied` accumulators of the source's stream listeners). -/
def prefixSums : List Nat → Nat → List Nat
  | [], _ => []
  | x :: rest, acc => (acc + x) :: prefixSums rest (acc + x)

/-- One asynchronous execution of `runBackup` past its precondition gate:
how many files `listDataFiles` found, how many stdout lines tar produced,
the archive/cipher sizes, the data chunks seen by the two stream
listeners, and the artifact name/size/finish instant. -/
structure BackupRun where
  totalFiles : Nat
  tarLines : Nat
  archiveBytes : Nat
  encChunks : List Nat
  cipherBytes : Nat
  writeChunks : List Nat
  fileName : JSStr
  finalSize : Nat
  finishedAtTime : Nat

/-- The ordered `updateStatus` patches of a successful `runBackup`:
prepare, one packing update per tar stdout line, the close-handler update,
one encrypting update per plaintext chunk, one writing update per
ciphertext chunk, and the final done update. -/
def normalUpdates (r : BackupRun) : List BackupUpd :=
  .prepare r.totalFiles r.fileName ::
    ((List.range r.tarLines).map (fun i => .packing (i + 1) r.totalFiles) ++
      .tarDone r.totalFiles ::
        ((prefixSums r.encChunks 0).map (fun pb => .encrypting pb (max r.archiveBytes 1)) ++
          ((prefixSums r.writeChunks 0).map (fun c => .writing c (max r.cipherBytes 1)) ++
            [.jobDone r.fileName r.finalSize r.finishedAtTime])))

/-- The precondition gate at the top of `runBackup`: a missing (blank)
backup passphrase or a passphrase equal to the content-encryption key hex
throws before any pipeline work. -/
def runBackupGate (backupPassphrase : JSStr) (contentKeyHex : Option JSStr) : Option String :=
  if (jsTrim backupPassphrase).length < 1 then
    some "BACKUP_ENCRYPTION_KEY fehlt. Backup kann nicht gestartet werden."
  else
    match contentKeyHex with
    | some ck =>
      if jsTrim backupPassphrase = ck then
        some "BACKUP_ENCRYPTION_KEY darf nicht identisch mit CONTENT_ENCRYPTION_KEY sein."
      else none
    | none => none

/-- The statuses of one backup job from its starting status: the gate may
throw immediately, the pipeline may fail after `k` updates (tar exit,
stream error, ...; the `catch` in `startBackupJob` then records the error
patch), or everything succeeds. -/
def backupJobTrace (st0 : BackupStatusM) (pass : JSStr) (ck : Option JSStr) (r : BackupRun)
    (failAt : Option (Nat × String)) : List BackupStatusM :=
  match runBackupGate pass ck with
  | some msg => [st0, applyUpd (.jobError msg r.finishedAtTime) st0]
  | none =>
    match failAt with
    | some (k, msg) =>
      let pre := statusTrace st0 ((normalUpdates r).take k)
      pre ++ [applyUpd (.jobError msg r.finishedAtTime) (pre.getLastD st0)]
    | none => statusTrace st0 (normalUpdates r)

/-- Net filesystem effect of one backup job on the backup directory: the
artifact and its `.sha256` sidecar appear only when the gate passes and the
pipeline succeeds (all temporary files are removed in `finally` blocks
either way). -/
def runBackupWorld (pass : JSStr) (ck : Option JSStr) (pipelineOk : Bool)
    (backupDir : JSStr) (r : BackupRun) (world : List JSStr) : List JSStr :=
  if (runBackupGate pass ck).isSome then world
  else if pipelineOk then
    world ++ [joinPath backupDir r.fileName, joinPath backupDir r.fileName ++ ".sha256".toList]
  else world

/-- The module-global mutable state of the backup module:
`backupStatus` and the single-flight handle `backupPromise`. -/
structure GlobalState where
  status : BackupStatusM
  promiseActive : Bool
deriving DecidableEq

/-- Result record of `startBackupJob`. -/
structure StartResult where
  started : Bool
  reason : Option String := none
  status : BackupStatusM
deriving DecidableEq

/-- The fresh status `startBackupJob` installs on a successful start. -/
def startStatus (now : Nat) : BackupStatusM :=
  { defaultStatus with
    running := true
    phase := .preparing
    message := "Backup wird gestartet..."
    startedAt := some now
    percent := 3 }

/-- `startBackupJob`: reject when a handle is in flight, reject when the
(trimmed) `BACKUP_ENCRYPTION_KEY` is blank, otherwise install the fresh
running status and the in-flight handle. -/
def startBackupJob (passRaw : JSStr) (now : Nat) (st : GlobalState) :
    StartResult × GlobalState :=
  if st.promiseActive then
    ({ started := false, reason := some "Ein Backup läuft bereits.", status := st.status }, st)
  else if (jsTrim passRaw).length < 1 then
    ({ started := false, reason := some "BACKUP_ENCRYPTION_KEY ist nicht gesetzt.",
       status := st.status }, st)
  else
    ({ started := true, status := startStatus now },
     { status := startStatus now, promiseActive := true })

/-- The `.finally` of the `runBackup()` promise chain: whatever final
status the job reached (done or error), the in-flight handle is cleared. -/
def completeJob (finalStatus : BackupStatusM) (_st : GlobalState) : GlobalState :=
  { status := finalStatus, promiseActive := false }

theorem applyUpd_percent (u : BackupUpd) (s : BackupStatusM) :
    (applyUpd u s).percent = updPercent u := by
  cases u <;> rfl

theorem statusTrace_map_percent (us : List BackupUpd) : ∀ s : BackupStatusM,
    (statusTrace s us).map (fun st => st.percent) = s.percent :: us.map updPercent := by
  induction us with
  | nil => intro s; simp [statusTrace]
  | cons u us ih =>
    intro s
    simp only [statusTrace, List.map_cons, ih (applyUpd u s), applyUpd_percent]

theorem toSafePercent_le_100 (v : ℚ) : toSafePercent v ≤ 100 := by
  unfold toSafePercent
  omega

theorem toSafePercent_mono {v w : ℚ} (h : v ≤ w) : toSafePercent v ≤ toSafePercent w := by
  unfold toSafePercent
  have hr : round v ≤ round w := by
    rw [round_eq, round_eq]
    exact Int.floor_le_floor (by linarith)
  omega

theorem toSafePercent_natCast (n : Nat) (h : n ≤ 100) : toSafePercent (n : ℚ) = n := by
  unfold toSafePercent
  rw [round_natCast]
  omega

theorem toSafePercent_ge (a : Nat) (v : ℚ) (ha : a ≤ 100) (h : (a : ℚ) ≤ v) :
    a ≤ toSafePercent v := by
  calc a = toSafePercent (a : ℚ) := (toSafePercent_natCast a ha).symm
    _ ≤ toSafePercent v := toSafePercent_mono h

theorem toSafePercent_le (b : Nat) (v : ℚ) (hb : b ≤ 100) (h : v ≤ (b : ℚ)) :
    toSafePercent v ≤ b := by
  calc toSafePercent v ≤ toSafePercent (b : ℚ) := toSafePercent_mono h
    _ = b := toSafePercent_natCast b hb

theorem packVal_bounds (p t : Nat) : 10 ≤ packVal p t ∧ packVal p t ≤ 65 := by
  unfold packVal
  constructor
  · apply le_min
    · split
      · have : (0 : ℚ) ≤ (p : ℚ) / (t : ℚ) * 55 := by positivity
        linarith
      · norm_num
    · norm_num
  · exact min_le_right _ _

theorem packVal_mono {p p' : Nat} (t : Nat) (h : p ≤ p') : packVal p t ≤ packVal p' t := by
  unfold packVal
  apply min_le_min _ le_rfl
  split
  · have hc : (p : ℚ) ≤ (p' : ℚ) := by exact_mod_cast h
    gcongr
  · exact le_rfl

theorem encVal_bounds (pb tb : Nat) : 65 ≤ encVal pb tb ∧ encVal pb tb ≤ 90 := by
  unfold encVal
  have h0 : (0 : ℚ) ≤ min ((pb : ℚ) / (tb : ℚ)) 1 := le_min (by positivity) (by norm_num)
  have h1 : min ((pb : ℚ) / (tb : ℚ)) 1 ≤ 1 := min_le_right _ _
  constructor <;> nlinarith

theorem encVal_mono {pb pb' : Nat} (tb : Nat) (h : pb ≤ pb') : encVal pb tb ≤ encVal pb' tb := by
  unfold encVal
  have hc : (pb : ℚ) ≤ (pb' : ℚ) := by exact_mod_cast h
  have : min ((pb : ℚ) / (tb : ℚ)) 1 ≤ min ((pb' : ℚ) / (tb : ℚ)) 1 := by
    apply min_le_min _ le_rfl
    gcongr
  nlinarith

theorem writeVal_bounds (c ct : Nat) : 90 ≤ writeVal c ct ∧ writeVal c ct ≤ 98 := by
  unfold writeVal
  have h0 : (0 : ℚ) ≤ min ((c : ℚ) / (ct : ℚ)) 1 := le_min (by positivity) (by norm_num)
  have h1 : min ((c : ℚ) / (ct : ℚ)) 1 ≤ 1 := min_le_right _ _
  constructor <;> nlinarith

theorem writeVal_mono {c c' : Nat} (ct : Nat) (h : c ≤ c') : writeVal c ct ≤ writeVal c' ct := by
  unfold writeVal
  have hc : (c : ℚ) ≤ (c' : ℚ) := by exact_mod_cast h
  have : min ((c : ℚ) / (ct : ℚ)) 1 ≤ min ((c' : ℚ) / (ct : ℚ)) 1 := by
    apply min_le_min _ le_rfl
    gcongr
  nlinarith

theorem prefixSums_chain (xs : List Nat) : ∀ acc : Nat,
    List.Chain' (· ≤ ·) (prefixSums xs acc) := by
  induction xs with
  | nil => intro acc; simp [prefixSums]
  | cons x rest ih =>
    intro acc
    simp only [prefixSums]
    rw [List.chain'_cons']
    refine ⟨?_, ih (acc + x)⟩
    intro y hy
    cases rest with
    | nil => simp [prefixSums] at hy
    | cons z r =>
      simp only [prefixSums, List.head?_cons, Option.mem_def, Option.some_inj] at hy
      omega

theorem chain'_le_append {l1 l2 : List Nat}
    (h1 : List.Chain' (· ≤ ·) l1) (h2 : List.Chain' (· ≤ ·) l2)
    (hb : ∀ x ∈ l1, ∀ y ∈ l2, x ≤ y) : List.Chain' (· ≤ ·) (l1 ++ l2) := by
  rw [List.chain'_append]
  exact ⟨h1, h2, fun x hx y hy =>
    hb x (List.mem_of_mem_getLast? hx) y (List.mem_of_mem_head? hy)⟩

theorem chain'_le_map_range (f : Nat → Nat) (L : Nat) (hf : ∀ i, f i ≤ f (i + 1)) :
    List.Chain' (· ≤ ·) ((List.range L).map f) := by
  rw [List.chain'_map]
  cases L with
  | zero => simp
  | succ n =>
    rw [List.chain'_range_succ]
    intro m _
    exact hf m

theorem chain'_le_map_of_chain {l : List Nat} (g : Nat → Nat)
    (hg : ∀ a b : Nat, a ≤ b → g a ≤ g b) (h : List.Chain' (· ≤ ·) l) :
    List.Chain' (· ≤ ·) (l.map g) := by
  rw [List.chain'_map]
  exact List.Chain'.imp (fun a b hab => hg a b hab) h

/-- Percent entries a successful job writes, from the start status on. -/
theorem normal_percents_chain (r : BackupRun) :
    List.Chain' (· ≤ ·) ((startStatus 0).percent :: (normalUpdates r).map updPercent) := by
  have h10 : toSafePercent 10 = 10 := toSafePercent_natCast 10 (by omega)
  have h65 : toSafePercent 65 = 65 := toSafePercent_natCast 65 (by omega)
  have h100 : toSafePercent 100 = 100 := toSafePercent_natCast 100 (by omega)
  have hpackb : ∀ p t : Nat, 10 ≤ toSafePercent (packVal p t) ∧
      toSafePercent (packVal p t) ≤ 65 := fun p t =>
    ⟨toSafePercent_ge 10 _ (by omega) (packVal_bounds p t).1,
      toSafePercent_le 65 _ (by omega) (packVal_bounds p t).2⟩
  have hencb : ∀ pb tb : Nat, 65 ≤ toSafePercent (encVal pb tb) ∧
      toSafePercent (encVal pb tb) ≤ 90 := fun pb tb =>
    ⟨toSafePercent_ge 65 _ (by omega) (encVal_bounds pb tb).1,
      toSafePercent_le 90 _ (by omega) (encVal_bounds pb tb).2⟩
  have hwriteb : ∀ c ct : Nat, 90 ≤ toSafePercent (writeVal c ct) ∧
      toSafePercent (writeVal c ct) ≤ 98 := fun c ct =>
    ⟨toSafePercent_ge 90 _ (by omega) (writeVal_bounds c ct).1,
      toSafePercent_le 98 _ (by omega) (writeVal_bounds c ct).2⟩
  simp only [normalUpdates, List.map_cons, List.map_append, List.map_map, updPercent]
  have hR4 : List.Chain' (· ≤ ·)
      (((prefixSums r.writeChunks 0).map
        (fun c => toSafePercent (writeVal c (max r.cipherBytes 1)))) ++ [toSafePercent 100]) := by
    apply chain'_le_append
    · exact chain'_le_map_of_chain _ (fun a b hab => toSafePercent_mono (writeVal_mono _ hab))
        (prefixSums_chain r.writeChunks 0)
    · simp
    · intro x hx y hy
      rcases List.mem_map.mp hx with ⟨c, -, rfl⟩
      simp only [List.mem_singleton] at hy
      subst hy
      rw [h100]
      exact le_trans (hwriteb c _).2 (by omega)
  have hR4mem : ∀ y ∈ (((prefixSums r.writeChunks 0).map
      (fun c => toSafePercent (writeVal c (max r.cipherBytes 1)))) ++ [toSafePercent 100]),
      90 ≤ y := by
    intro y hy
    rcases List.mem_append.mp hy with hy | hy
    · rcases List.mem_map.mp hy with ⟨c, -, rfl⟩
      exact (hwriteb c _).1
    · simp only [List.mem_singleton] at hy
      subst hy
      omega
  have hR3 : List.Chain' (· ≤ ·)
      (((prefixSums r.encChunks 0).map
        (fun pb => toSafePercent (encVal pb (max r.archiveBytes 1)))) ++
       (((prefixSums r.writeChunks 0).map
        (fun c => toSafePercent (writeVal c (max r.cipherBytes 1)))) ++ [toSafePercent 100])) := by
    apply chain'_le_append
    · exact chain'_le_map_of_chain _ (fun a b hab => toSafePercent_mono (encVal_mono _ hab))
        (prefixSums_chain r.encChunks 0)
    · exact hR4
    · intro x hx y hy
      rcases List.mem_map.mp hx with ⟨pb, -, rfl⟩
      exact le_trans (hencb pb _).2 (hR4mem y hy)
  have hR3mem : ∀ y ∈ (((prefixSums r.encChunks 0).map
      (fun pb => toSafePercent (encVal pb (max r.archiveBytes 1)))) ++
       (((prefixSums r.writeChunks 0).map
        (fun c => toSafePercent (writeVal c (max r.cipherBytes 1)))) ++ [toSafePercent 100])),
      65 ≤ y := by
    intro y hy
    rcases List.mem_append.mp hy with hy | hy
    · rcases List.mem_map.mp hy with ⟨pb, -, rfl⟩
      exact (hencb pb _).1
    · exact le_trans (by omega) (hR4mem y hy)
  have hR2 : List.Chain' (· ≤ ·)
      (toSafePercent 65 :: (((prefixSums r.encChunks 0).map
        (fun pb => toSafePercent (encVal pb (max r.archiveBytes 1)))) ++
       (((prefixSums r.writeChunks 0).map
        (fun c => toSafePercent (writeVal c (max r.cipherBytes 1)))) ++ [toSafePercent 100]))) := by
    rw [List.chain'_cons']
    refine ⟨?_, hR3⟩
    intro y hy
    rw [h65]
    exact hR3mem y (List.mem_of_mem_head? hy)
  have hR1 : List.Chain' (· ≤ ·)
      (((List.range r.tarLines).map (fun i => toSafePercent (packVal (i + 1) r.totalFiles))) ++
        (toSafePercent 65 :: (((prefixSums r.encChunks 0).map
          (fun pb => toSafePercent (encVal pb (max r.archiveBytes 1)))) ++
         (((prefixSums r.writeChunks 0).map
          (fun c => toSafePercent (writeVal c (max r.cipherBytes 1)))) ++
            [toSafePercent 100])))) := by
    apply chain'_le_append
    · exact chain'_le_map_range _ _ (fun i => toSafePercent_mono (packVal_mono _ (by omega)))
    · exact hR2
    · intro x hx y hy
      rcases List.mem_map.mp hx with ⟨i, -, rfl⟩
      rcases List.mem_cons.mp hy with rfl | hy
      · rw [h65]
        exact (hpackb (i + 1) r.totalFiles).2
      · exact le_trans (hpackb (i + 1) r.totalFiles).2 (hR3mem y hy)
  rw [List.chain'_cons']
  constructor
  · intro y hy
    simp only [List.head?_cons, Option.mem_def, Option.some_inj] at hy
    subst hy
    simp [startStatus, defaultStatus, h10]
  · rw [List.chain'_cons']
    refine ⟨?_, hR1⟩
    intro y hy
    rw [h10]
    have hmem := List.mem_of_mem_head? hy
    rcases List.mem_append.mp hmem with hmem | hmem
    · rcases List.mem_map.mp hmem with ⟨i, -, rfl⟩
      exact (hpackb (i + 1) r.totalFiles).1
    · rcases List.mem_cons.mp hmem with rfl | hmem
      · omega
      · exact le_trans (by omega) (hR3mem y hmem)

/-- The status of a live, not-yet-finished job. -/
def NonTerminalStatus (s : BackupStatusM) : Prop :=
  s.running = true ∧ s.phase ≠ .done ∧ s.phase ≠ .error

/-- The invariant the claim states about the `running` flag. -/
def RunningIff (s : BackupStatusM) : Prop :=
  s.running = false ↔ (s.phase = .done ∨ s.phase = .error)

theorem nonTerminal_runningIff {s : BackupStatusM} (h : NonTerminalStatus s) : RunningIff s := by
  obtain ⟨h1, h2, h3⟩ := h
  constructor
  · intro hc
    rw [h1] at hc
    cases hc
  · intro hc
    rcases hc with hc | hc
    · exact absurd hc h2
    · exact absurd hc h3

theorem applyUpd_nonTerminal {u : BackupUpd} (hu : updTerminal u = false) {s : BackupStatusM}
    (hs : NonTerminalStatus s) : NonTerminalStatus (applyUpd u s) := by
  cases u <;> simp_all [updTerminal, applyUpd, NonTerminalStatus]

theorem applyUpd_terminal_runningIff (u : BackupUpd) (hu : updTerminal u = true)
    (s : BackupStatusM) : RunningIff (applyUpd u s) := by
  cases u <;> simp_all [updTerminal, applyUpd, RunningIff]

/-- The state after replaying a sequence of updates (the value the status
variable holds when the next listener fires). -/
def lastState (s : BackupStatusM) (us : List BackupUpd) : BackupStatusM :=
  us.foldl (fun acc u => applyUpd u acc) s

theorem statusTrace_snoc (us : List BackupUpd) : ∀ (s : BackupStatusM) (u : BackupUpd),
    statusTrace s (us ++ [u]) = statusTrace s us ++ [applyUpd u (lastState s us)] := by
  induction us with
  | nil => intro s u; simp [statusTrace, lastState]
  | cons v us ih =>
    intro s u
    simp only [List.cons_append, statusTrace, lastState, List.foldl_cons]
    rw [show us.append [u] = us ++ [u] from rfl, ih]
    rfl

theorem getLastD_statusTrace (us : List BackupUpd) : ∀ (s d : BackupStatusM),
    (statusTrace s us).getLastD d = lastState s us := by
  induction us with
  | nil => intro s d; simp [statusTrace, lastState]
  | cons u us ih =>
    intro s d
    simp only [statusTrace, lastState, List.foldl_cons]
    rw [List.getLastD_cons]
    exact ih (applyUpd u s) s

theorem statusTrace_runningIff_front (us : List BackupUpd)
    (h : ∀ u ∈ us, updTerminal u = false) : ∀ s : BackupStatusM, NonTerminalStatus s →
    (∀ st ∈ statusTrace s us, RunningIff st) ∧ NonTerminalStatus (lastState s us) := by
  induction us with
  | nil =>
    intro s hs
    refine ⟨?_, hs⟩
    intro st hst
    simp only [statusTrace, List.mem_singleton] at hst
    subst hst
    exact nonTerminal_runningIff hs
  | cons u us ih =>
    intro s hs
    have hu : updTerminal u = false := h u (by simp)
    have hrest := ih (fun v hv => h v (by simp [hv])) (applyUpd u s) (applyUpd_nonTerminal hu hs)
    constructor
    · intro st hst
      simp only [statusTrace, List.mem_cons] at hst
      rcases hst with rfl | hst
      · exact nonTerminal_runningIff hs
      · exact hrest.1 st hst
    · simpa [lastState] using hrest.2

/-- The front of `normalUpdates`, everything before the final done patch. -/
def normalFront (r : BackupRun) : List BackupUpd :=
  .prepare r.totalFiles r.fileName ::
    ((List.range r.tarLines).map (fun i => .packing (i + 1) r.totalFiles) ++
      .tarDone r.totalFiles ::
        ((prefixSums r.encChunks 0).map (fun pb => .encrypting pb (max r.archiveBytes 1)) ++
          (prefixSums r.writeChunks 0).map (fun c => .writing c (max r.cipherBytes 1))))

theorem normalUpdates_eq (r : BackupRun) :
    normalUpdates r = normalFront r ++ [.jobDone r.fileName r.finalSize r.finishedAtTime] := by
  simp [normalUpdates, normalFront]

theorem normalFront_nonTerminal (r : BackupRun) :
    ∀ u ∈ normalFront r, updTerminal u = false := by
  intro u hu
  simp only [normalFront, List.mem_cons, List.mem_append, List.mem_map] at hu
  rcases hu with rfl | hu
  · rfl
  · rcases hu with ⟨i, -, rfl⟩ | hu
    · rfl
    · rcases hu with rfl | hu
      · rfl
      · rcases hu with ⟨pb, -, rfl⟩ | ⟨c, -, rfl⟩ <;> rfl

theorem updPercent_le_100 (u : BackupUpd) : updPercent u ≤ 100 := by
  cases u <;> exact toSafePercent_le_100 _

theorem startStatus_nonTerminal (now : Nat) : NonTerminalStatus (startStatus now) := by
  simp [startStatus, defaultStatus, NonTerminalStatus]

/-- C9: within a single backup job, every status update keeps `percent`
within [0,100] (it is a `Nat`, so 0 ≤ percent is automatic) and never
decreases it relative to the previous status of the same job, and the
`running` flag is `false` exactly on the terminal phases (`done`/`error`);
the initial idle state has `running = false` and phase `idle`. -/
theorem c9_progress_invariants (now : Nat) (pass : JSStr) (ck : Option JSStr) (r : BackupRun)
    (failAt : Option (Nat × String)) :
    List.Chain' (fun a b => a.percent ≤ b.percent)
        (backupJobTrace (startStatus now) pass ck r failAt) ∧
      (∀ st ∈ backupJobTrace (startStatus now) pass ck r failAt, st.percent ≤ 100) ∧
      (∀ st ∈ backupJobTrace (startStatus now) pass ck r failAt, RunningIff st) ∧
      defaultStatus.running = false ∧ defaultStatus.phase = .idle := by
  have h100 : toSafePercent 100 = 100 := toSafePercent_natCast 100 (by omega)
  have hst0 := startStatus_nonTerminal now
  have hchain0 := normal_percents_chain r
  have hboundlist : ∀ x ∈ (startStatus now).percent :: (normalUpdates r).map updPercent,
      x ≤ 100 := by
    intro x hx
    rcases List.mem_cons.mp hx with rfl | hx
    · have : (startStatus now).percent = 3 := rfl
      omega
    · rcases List.mem_map.mp hx with ⟨u, -, rfl⟩
      exact updPercent_le_100 u
  unfold backupJobTrace
  cases hg : runBackupGate pass ck with
  | some msg =>
    dsimp only
    refine ⟨?_, ?_, ?_, rfl, rfl⟩
    · rw [List.chain'_cons]
      refine ⟨?_, by simp⟩
      rw [applyUpd_percent]
      have hp3 : (startStatus now).percent = 3 := rfl
      simp only [updPercent, h100]
      omega
    · intro st hst
      rcases List.mem_cons.mp hst with rfl | hst
      · have : (startStatus now).percent = 3 := rfl
        omega
      · simp only [List.mem_singleton] at hst
        subst hst
        rw [applyUpd_percent]
        exact updPercent_le_100 _
    · intro st hst
      rcases List.mem_cons.mp hst with rfl | hst
      · exact nonTerminal_runningIff hst0
      · simp only [List.mem_singleton] at hst
        subst hst
        exact applyUpd_terminal_runningIff (.jobError msg r.finishedAtTime) rfl _
  | none =>
    cases failAt with
    | none =>
      dsimp only
      refine ⟨?_, ?_, ?_, rfl, rfl⟩
      · rw [← List.chain'_map (fun st : BackupStatusM => st.percent),
          statusTrace_map_percent]
        exact hchain0
      · intro st hst
        have hmem : st.percent ∈ (statusTrace (startStatus now) (normalUpdates r)).map
            (fun st => st.percent) := List.mem_map_of_mem _ hst
        rw [statusTrace_map_percent] at hmem
        exact hboundlist _ hmem
      · intro st hst
        rw [normalUpdates_eq, statusTrace_snoc] at hst
        rcases List.mem_append.mp hst with hst | hst
        · exact (statusTrace_runningIff_front (normalFront r) (normalFront_nonTerminal r)
            (startStatus now) hst0).1 st hst
        · simp only [List.mem_singleton] at hst
          subst hst
          exact applyUpd_terminal_runningIff
            (.jobDone r.fileName r.finalSize r.finishedAtTime) rfl _
    | some km =>
      obtain ⟨k, msg⟩ := km
      dsimp only
      have hpre : (statusTrace (startStatus now) ((normalUpdates r).take k)).map
          (fun st => st.percent) =
          List.take (k + 1) ((startStatus now).percent :: (normalUpdates r).map updPercent) := by
        rw [statusTrace_map_percent, List.take_succ_cons, List.map_take]
      refine ⟨?_, ?_, ?_, rfl, rfl⟩
      · rw [← List.chain'_map (fun st : BackupStatusM => st.percent), List.map_append,
          hpre, List.map_singleton, applyUpd_percent]
        simp only [updPercent, h100]
        apply chain'_le_append
        · exact hchain0.take _
        · simp
        · intro x hx y hy
          simp only [List.mem_singleton] at hy
          subst hy
          exact hboundlist x (List.mem_of_mem_take hx)
      · intro st hst
        rcases List.mem_append.mp hst with hst | hst
        · have hmem : st.percent ∈ (statusTrace (startStatus now)
              ((normalUpdates r).take k)).map (fun st => st.percent) :=
            List.mem_map_of_mem _ hst
          rw [hpre] at hmem
          exact hboundlist _ (List.mem_of_mem_take hmem)
        · simp only [List.mem_singleton] at hst
          subst hst
          rw [applyUpd_percent]
          exact updPercent_le_100 _
      · intro st hst
        have hiffpre : (∀ s ∈ statusTrace (startStatus now) ((normalUpdates r).take k),
            RunningIff s) := by
          by_cases hk : k ≤ (normalFront r).length
          · have htake : (normalUpdates r).take k = (normalFront r).take k := by
              rw [normalUpdates_eq]
              rw [List.take_append_eq_append_take]
              have : k - (normalFront r).length = 0 := by omega
              rw [this]
              simp
            rw [htake]
            exact (statusTrace_runningIff_front _
              (fun u hu => normalFront_nonTerminal r u (List.mem_of_mem_take hu))
              (startStatus now) hst0).1
          · have htake : (normalUpdates r).take k = normalUpdates r := by
              apply List.take_of_length_le
              rw [normalUpdates_eq]
              simp only [List.length_append, List.length_singleton]
              omega
            rw [htake, normalUpdates_eq, statusTrace_snoc]
            intro s hs
            rcases List.mem_append.mp hs with hs | hs
            · exact (statusTrace_runningIff_front (normalFront r) (normalFront_nonTerminal r)
                (startStatus now) hst0).1 s hs
            · simp only [List.mem_singleton] at hs
              subst hs
              exact applyUpd_terminal_runningIff
                (.jobDone r.fileName r.finalSize r.finishedAtTime) rfl _
        rcases List.mem_append.mp hst with hst | hst
        · exact hiffpre st hst
        · simp only [List.mem_singleton] at hst
          subst hst
          exact applyUpd_terminal_runningIff (.jobError msg r.finishedAtTime) rfl _

/-- `SAFE_BACKUP_FILE_PATTERN`, the anchored regex
`flatwiki-backup-[0-9]{8}-[0-9]{6}\.tar\.gz\.enc` as an executable
matcher (16 fixed chars, 8 digits, `-`, 6 digits, 11 fixed chars). -/
def safeBackupFilePattern (s : JSStr) : Bool :=
  decide (s.length = 42) &&
  "flatwiki-backup-".toList.isPrefixOf s &&
  ((s.drop 16).take 8).all Char.isDigit &&
  decide ((s.drop 24).take 1 = ['-']) &&
  ((s.drop 25).take 6).all Char.isDigit &&
  decide (s.drop 31 = ".tar.gz.enc".toList)

/-- `resolveBackupFilePath`: basename of the trimmed input, strict pattern
check, join into the backup directory, then `fs.stat` (modelled by
`statOf`: `none` when `stat` throws, `some b` with `b` = `isFile`). -/
def resolveBackupFilePath (statOf : JSStr → Option Bool) (backupDir : JSStr)
    (fileNameInput : JSStr) : Option JSStr :=
  let fileName := basename (jsTrim fileNameInput)
  if safeBackupFilePattern fileName then
    match statOf (joinPath backupDir fileName) with
    | some true => some (joinPath backupDir fileName)
    | _ => none
  else none

/-- `listBackupFiles`, modelled at the level of accepted file names:
`readdir` entries are filtered by the strict pattern and then by a
successful regular-file `stat` (sizes, mtimes, checksum-sidecar flags and
the mtime sort do not affect which names are admitted and are omitted). -/
def listBackupFiles (statOf : JSStr → Option Bool) (backupDir : JSStr)
    (entries : List JSStr) : List JSStr :=
  (entries.filter (fun n => safeBackupFilePattern n)).filter
    (fun n => statOf (joinPath backupDir n) = some true)

/-- `safeResolve` of `fileStore.ts`: `path.resolve baseDir rel` followed
by a boundary check that throws (modelled as `none`) when the resolved
candidate is neither the base directory itself nor strictly inside it.
The callers modelled here only ever pass slash-free single-component
names (basenames), for which `path.resolve base name` is `base` itself
for `"."`, the parent directory — outside the boundary, hence a throw —
for `".."`, and `base ++ "/" ++ name` (inside the boundary) otherwise. -/
def safeResolve (baseDir name : JSStr) : Option JSStr :=
  if name = ".".toList then some baseDir
  else if name = "..".toList then none
  else some (joinPath baseDir name)

/-- `removeFile` of `fileStore.ts`: the path is re-resolved inside the
configured root directory (`resolveInsideRoot`, the identity for the
in-root paths the backup and attachment modules pass) and unlinked, any
error — in particular a missing file — being swallowed by the `catch`
no-op. Net effect on the list of existing regular files: the path is
dropped. -/
def removeFileFS (files : List JSStr) (p : JSStr) : List JSStr :=
  files.filter (fun q => decide (q ≠ p))

/-- A `stat` function backed by the explicit file list: every listed path
is an existing regular file. -/
def statOfFiles (files : List JSStr) : JSStr → Option Bool :=
  fun p => if p ∈ files then some true else none

/-- `deleteBackupFile`: resolve through the pattern gate; unresolved names
delete nothing and return `false`; a resolved artifact is removed together
with its `.sha256` sidecar. -/
def deleteBackupFile (files : List JSStr) (backupDir : JSStr) (fileNameInput : JSStr) :
    Bool × List JSStr :=
  match resolveBackupFilePath (statOfFiles files) backupDir fileNameInput with
  | none => (false, files)
  | some p => (true, removeFileFS (removeFileFS files p) (p ++ ".sha256".toList))

theorem isDigit_ne_slash (c : Char) (h : c.isDigit = true) : c ≠ '/' := by
  intro hc
  subst hc
  exact absurd h (by decide)

theorem safeBackupFilePattern_no_slash (s : JSStr) (h : safeBackupFilePattern s = true) :
    '/' ∉ s := by
  unfold safeBackupFilePattern at h
  simp only [Bool.and_eq_true, decide_eq_true_eq, List.all_eq_true] at h
  obtain ⟨⟨⟨⟨⟨hlen, hpre⟩, hd8⟩, hdash⟩, hd6⟩, hsuf⟩ := h
  intro hmem
  rw [← List.take_append_drop 16 s] at hmem
  rcases List.mem_append.mp hmem with hmem | hmem
  · rw [ List.isPrefixOf_iff_prefix] at hpre
    obtain ⟨t, ht⟩ := hpre
    rw [← ht, List.take_left' (by decide)] at hmem
    exact absurd hmem (by decide)
  · rw [← List.take_append_drop 8 (s.drop 16)] at hmem
    rcases List.mem_append.mp hmem with hmem | hmem
    · exact isDigit_ne_slash '/' (hd8 '/' hmem) rfl
    · rw [List.drop_drop] at hmem
      have h24 : s.drop 24 = '-' :: s.drop 25 := by
        have := List.take_append_drop 1 (s.drop 24)
        rw [hdash] at this
        rw [← this, List.drop_drop]
        rfl
      have h8 : (16 : Nat) + 8 = 24 := by omega
      rw [h8, h24] at hmem
      rcases List.mem_cons.mp hmem with hmem | hmem
      · exact absurd hmem (by decide)
      · rw [← List.take_append_drop 6 (s.drop 25)] at hmem
        rcases List.mem_append.mp hmem with hmem | hmem
        · exact isDigit_ne_slash '/' (hd6 '/' hmem) rfl
        · rw [List.drop_drop] at hmem
          have h31 : (6 : Nat) + 25 = 31 := by omega
          rw [h31, hsuf] at hmem
          exact absurd hmem (by decide)

theorem dropWhile_eq_self_of_none {p : Char → Bool} (l : JSStr)
    (h : ∀ c ∈ l, p c = false) : l.dropWhile p = l := by
  cases l with
  | nil => rfl
  | cons a t =>
    rw [List.dropWhile_cons]
    simp [h a (by simp)]

theorem takeWhile_eq_self_of_all {p : Char → Bool} (l : JSStr)
    (h : ∀ c ∈ l, p c = true) : l.takeWhile p = l := by
  induction l with
  | nil => rfl
  | cons a t ih =>
    rw [List.takeWhile_cons]
    simp only [h a (by simp), if_true]
    rw [ih (fun c hc => h c (by simp [hc]))]

theorem basename_no_slash (s : JSStr) (h : '/' ∉ s) : basename s = s := by
  unfold basename
  have h1 : s.reverse.dropWhile (fun c => c = '/') = s.reverse := by
    apply dropWhile_eq_self_of_none
    intro c hc
    rw [List.mem_reverse] at hc
    simp only [decide_eq_false_iff_not]
    intro hcon
    subst hcon
    exact h hc
  rw [h1, List.reverse_reverse]
  have h2 : s.reverse.takeWhile (fun c => c ≠ '/') = s.reverse := by
    apply takeWhile_eq_self_of_all
    intro c hc
    rw [List.mem_reverse] at hc
    simp only [ne_eq, decide_eq_true_eq]
    intro hcon
    subst hcon
    exact h hc
  show (List.takeWhile (fun x => decide (x ≠ '/')) s.reverse).reverse = s
  rw [h2, List.reverse_reverse]

/-- C4: only file names whose basename exactly matches the strict pattern
resolve; the two traversal probes return `null`; every resolved path is
the backup directory joined with a slash-free pattern-matching name; the
artifact listing admits exactly pattern-matching basenames; and
`deleteBackupFile` goes through the same gate (deleting nothing for
unresolved names). -/
theorem c4_backup_path_gate :
    (∀ (statOf : JSStr → Option Bool) (dir input : JSStr),
      safeBackupFilePattern (basename (jsTrim input)) = false →
        resolveBackupFilePath statOf dir input = none) ∧
    (∀ (statOf : JSStr → Option Bool) (dir : JSStr),
      resolveBackupFilePath statOf dir ("../../etc/passwd".toList) = none) ∧
    (∀ (statOf : JSStr → Option Bool) (dir : JSStr),
      resolveBackupFilePath statOf dir
        ("flatwiki-backup-20260101-000000.tar.gz.enc/../x".toList) = none) ∧
    (∀ (statOf : JSStr → Option Bool) (dir input p : JSStr),
      resolveBackupFilePath statOf dir input = some p →
        ∃ name, safeBackupFilePattern name = true ∧ '/' ∉ name ∧ p = joinPath dir name) ∧
    (∀ (statOf : JSStr → Option Bool) (dir : JSStr) (entries : List JSStr) (n : JSStr),
      n ∈ listBackupFiles statOf dir entries →
        safeBackupFilePattern n = true ∧ basename n = n) ∧
    (∀ (files : List JSStr) (dir input : JSStr),
      resolveBackupFilePath (statOfFiles files) dir input = none →
        deleteBackupFile files dir input = (false, files)) := by
  have hnone : ∀ (statOf : JSStr → Option Bool) (dir input : JSStr),
      safeBackupFilePattern (basename (jsTrim input)) = false →
        resolveBackupFilePath statOf dir input = none := by
    intro statOf dir input h
    unfold resolveBackupFilePath
    simp [h]
  refine ⟨hnone, ?_, ?_, ?_, ?_, ?_⟩
  · intro statOf dir
    exact hnone statOf dir _ (by decide)
  · intro statOf dir
    exact hnone statOf dir _ (by decide)
  · intro statOf dir input p h
    unfold resolveBackupFilePath at h
    by_cases hpat : safeBackupFilePattern (basename (jsTrim input)) = true
    · rw [if_pos hpat] at h
      refine ⟨basename (jsTrim input), hpat,
        safeBackupFilePattern_no_slash _ hpat, ?_⟩
      rcases hstat : statOf (joinPath dir (basename (jsTrim input))) with - | b
      · rw [hstat] at h
        cases h
      · rw [hstat] at h
        cases b
        · cases h
        · exact (Option.some_inj.mp h).symm
    · rw [if_neg hpat] at h
      cases h
  · intro statOf dir entries n hn
    unfold listBackupFiles at hn
    have h1 := List.of_mem_filter (List.mem_of_mem_filter hn)
    have hpat : safeBackupFilePattern n = true := by simpa using h1
    exact ⟨hpat, basename_no_slash n (safeBackupFilePattern_no_slash n hpat)⟩
  · intro files dir input h
    unfold deleteBackupFile
    rw [h]

/-- C4 (witness): concrete instances — an arbitrary non-matching name and
the two traversal probes are rejected by `resolveBackupFilePath`. -/
theorem c4_backup_path_gate_witness :
    resolveBackupFilePath (statOfFiles []) ['d'] ['x'] = none ∧
      resolveBackupFilePath (statOfFiles []) ['d'] ("../../etc/passwd".toList) = none ∧
      resolveBackupFilePath (statOfFiles [])
        ['d'] ("flatwiki-backup-20260101-000000.tar.gz.enc/../x".toList) = none :=
  ⟨c4_backup_path_gate.1 (statOfFiles []) ['d'] ['x'] (by decide),
    c4_backup_path_gate.2.1 (statOfFiles []) ['d'],
    c4_backup_path_gate.2.2.1 (statOfFiles []) ['d']⟩

/-- C10: `deleteBackupFile` with an unresolvable name returns `false` and
removes nothing; with a resolvable name it returns `true` and removes
exactly the artifact and its `.sha256` sidecar. -/
theorem c10_delete_artifact_and_sidecar (files : List JSStr) (dir input : JSStr) :
    (resolveBackupFilePath (statOfFiles files) dir input = none →
      deleteBackupFile files dir input = (false, files)) ∧
    (∀ p, resolveBackupFilePath (statOfFiles files) dir input = some p →
      (deleteBackupFile files dir input).1 = true ∧
      p ∉ (deleteBackupFile files dir input).2 ∧
      (p ++ ".sha256".toList) ∉ (deleteBackupFile files dir input).2 ∧
      (∀ q, q ∈ (deleteBackupFile files dir input).2 ↔
        (q ∈ files ∧ q ≠ p ∧ q ≠ p ++ ".sha256".toList))) := by
  constructor
  · intro h
    unfold deleteBackupFile
    rw [h]
  · intro p h
    unfold deleteBackupFile
    rw [h]
    refine ⟨rfl, ?_, ?_, ?_⟩
    · intro hc
      unfold removeFileFS at hc
      have := List.of_mem_filter (List.mem_of_mem_filter hc)
      simp at this
    · intro hc
      unfold removeFileFS at hc
      have := List.of_mem_filter hc
      simp at this
    · intro q
      unfold removeFileFS
      constructor
      · intro hq
        have hq1 := List.mem_of_mem_filter hq
        have hd2 := List.of_mem_filter hq
        have hd1 := List.of_mem_filter hq1
        have hq2 := List.mem_of_mem_filter hq1
        simp only [decide_eq_true_eq] at hd1 hd2
        exact ⟨hq2, hd1, hd2⟩
      · rintro ⟨hmem, h1, h2⟩
        exact List.mem_filter.mpr ⟨List.mem_filter.mpr ⟨hmem, by simpa using h1⟩,
          by simpa using h2⟩

/-- C10 (witness): deleting the concrete artifact
`flatwiki-backup-20260101-000000.tar.gz.enc` from a directory holding it
and its sidecar returns `true` and leaves an unrelated file in place. -/
theorem c10_delete_artifact_and_sidecar_witness :
    (deleteBackupFile
        [joinPath ['d'] ("flatwiki-backup-20260101-000000.tar.gz.enc".toList),
         joinPath ['d'] ("flatwiki-backup-20260101-000000.tar.gz.enc".toList) ++
           ".sha256".toList, ['d', '/', 'o']]
        ['d'] ("flatwiki-backup-20260101-000000.tar.gz.enc".toList)).1 = true ∧
      joinPath ['d'] ("flatwiki-backup-20260101-000000.tar.gz.enc".toList) ∉
        (deleteBackupFile
          [joinPath ['d'] ("flatwiki-backup-20260101-000000.tar.gz.enc".toList),
           joinPath ['d'] ("flatwiki-backup-20260101-000000.tar.gz.enc".toList) ++
             ".sha256".toList, ['d', '/', 'o']]
          ['d'] ("flatwiki-backup-20260101-000000.tar.gz.enc".toList)).2 ∧
      (['d', '/', 'o'] ∈
        (deleteBackupFile
          [joinPath ['d'] ("flatwiki-backup-20260101-000000.tar.gz.enc".toList),
           joinPath ['d'] ("flatwiki-backup-20260101-000000.tar.gz.enc".toList) ++
             ".sha256".toList, ['d', '/', 'o']]
          ['d'] ("flatwiki-backup-20260101-000000.tar.gz.enc".toList)).2) := by
  have h := (c10_delete_artifact_and_sidecar
    [joinPath ['d'] ("flatwiki-backup-20260101-000000.tar.gz.enc".toList),
     joinPath ['d'] ("flatwiki-backup-20260101-000000.tar.gz.enc".toList) ++ ".sha256".toList,
     ['d', '/', 'o']]
    ['d'] ("flatwiki-backup-20260101-000000.tar.gz.enc".toList)).2
    (joinPath ['d'] ("flatwiki-backup-20260101-000000.tar.gz.enc".toList)) (by decide)
  exact ⟨h.1, h.2.1, (h.2.2.2 ['d', '/', 'o']).mpr ⟨by decide, by decide, by decide⟩⟩

/-- C5: while a handle is in flight every further start call returns
`started:false` with the "already running" reason and the current status,
leaving the state untouched; of two consecutive start calls against an
idle guard exactly the first starts; and after `completeJob` (the
`finally` of the promise chain, reached on `done` and on `error` alike)
the slot is free and a new start succeeds immediately. -/
theorem c5_single_flight (pass : JSStr) (now now2 : Nat) (st : GlobalState)
    (final : BackupStatusM) :
    (st.promiseActive = true →
      startBackupJob pass now st =
        ({ started := false, reason := some "Ein Backup läuft bereits.",
           status := st.status }, st)) ∧
    (st.promiseActive = false → ¬ ((jsTrim pass).length < 1) →
      (startBackupJob pass now st).1.started = true ∧
      ((startBackupJob pass now st).2).promiseActive = true ∧
      (startBackupJob pass now ((startBackupJob pass now st).2)).1.started = false ∧
      (startBackupJob pass now ((startBackupJob pass now st).2)).1.reason =
        some "Ein Backup läuft bereits." ∧
      (startBackupJob pass now ((startBackupJob pass now st).2)).2 =
        (startBackupJob pass now st).2) ∧
    ((completeJob final st).promiseActive = false) ∧
    (¬ ((jsTrim pass).length < 1) →
      (startBackupJob pass now2 (completeJob final st)).1.started = true) := by
  refine ⟨?_, ?_, rfl, ?_⟩
  · intro h
    unfold startBackupJob
    rw [if_pos h]
  · intro h hp
    unfold startBackupJob
    rw [if_neg (by rw [h]; exact Bool.false_ne_true), if_neg hp]
    simp
  · intro hp
    unfold startBackupJob completeJob
    simp [hp]

/-- C5 (witness): concrete run — an idle state with a configured
passphrase starts exactly once, and a completed job is startable again. -/
theorem c5_single_flight_witness :
    (startBackupJob ['k'] 0 { status := defaultStatus, promiseActive := false }).1.started =
        true ∧
      (startBackupJob ['k'] 0
        ((startBackupJob ['k'] 0
          { status := defaultStatus, promiseActive := false }).2)).1.started = false ∧
      (startBackupJob ['k'] 1
        (completeJob defaultStatus
          { status := defaultStatus, promiseActive := true })).1.started = true := by
  have h := c5_single_flight ['k'] 0 1 { status := defaultStatus, promiseActive := false }
    defaultStatus
  have h2 := (h.2.1 rfl (by decide))
  have h3 := c5_single_flight ['k'] 0 1 { status := defaultStatus, promiseActive := true }
    defaultStatus
  exact ⟨h2.1, h2.2.2.1, h3.2.2.2 (by decide)⟩

/-- C6 (counterexample): with the backup passphrase equal to the
content-encryption key (both `"aa"`), `startBackupJob` still returns
`started := true` — the equality precondition is only enforced inside
`runBackup`, so the start itself is not rejected as the claim states. -/
theorem c6_equal_key_start_counterexample :
    jsTrim ['a', 'a'] = ['a', 'a'] ∧
      runBackupGate ['a', 'a'] (some ['a', 'a']) =
        some "BACKUP_ENCRYPTION_KEY darf nicht identisch mit CONTENT_ENCRYPTION_KEY sein." ∧
      (startBackupJob ['a', 'a'] 0
        { status := defaultStatus, promiseActive := false }).1.started = true := by
  refine ⟨by decide, by decide, by decide⟩

/-- C6 (amended): a backup start call is rejected when no (non-blank)
passphrase is configured; when the passphrase equals the
content-encryption key the job starts but `runBackup` fails its
precondition gate immediately: the job terminates in the `error` phase and
no backup artifact is produced. -/
theorem c6_backup_precondition (pass ck : JSStr) (now : Nat) (r : BackupRun)
    (failAt : Option (Nat × String)) (world : List JSStr) (dir : JSStr) (pOk : Bool)
    (hne : ¬ ((jsTrim pass).length < 1)) (heq : jsTrim pass = ck) :
    ((backupJobTrace (startStatus now) pass (some ck) r failAt).getLastD
        defaultStatus).phase = .error ∧
      runBackupWorld pass (some ck) pOk dir r world = world ∧
      (∀ st : GlobalState, st.promiseActive = false →
        (startBackupJob pass now st).1.started = true) ∧
      (∀ (pass2 : JSStr) (now3 : Nat) (st : GlobalState),
        (jsTrim pass2).length < 1 → st.promiseActive = false →
          (startBackupJob pass2 now3 st).1.started = false) := by
  have hgate : runBackupGate pass (some ck) =
      some "BACKUP_ENCRYPTION_KEY darf nicht identisch mit CONTENT_ENCRYPTION_KEY sein." := by
    unfold runBackupGate
    rw [if_neg hne]
    simp [heq]
  refine ⟨?_, ?_, ?_, ?_⟩
  · unfold backupJobTrace
    rw [hgate]
    rfl
  · unfold runBackupWorld
    rw [hgate]
    rfl
  · intro st hst
    unfold startBackupJob
    rw [if_neg (by rw [hst]; exact Bool.false_ne_true), if_neg hne]
  · intro pass2 now3 st h2 hst
    unfold startBackupJob
    rw [if_neg (by rw [hst]; exact Bool.false_ne_true), if_pos h2]

/-- C6 (amended, witness): concrete instance with passphrase and content
key both `"aa"`. -/
theorem c6_backup_precondition_witness :
    ((backupJobTrace (startStatus 0) ['a', 'a'] (some ['a', 'a'])
        { totalFiles := 1, tarLines := 1, archiveBytes := 1, encChunks := [1],
          cipherBytes := 1, writeChunks := [1], fileName := ['f'], finalSize := 1,
          finishedAtTime := 2 } none).getLastD defaultStatus).phase = .error ∧
      runBackupWorld ['a', 'a'] (some ['a', 'a']) true ['d']
        { totalFiles := 1, tarLines := 1, archiveBytes := 1, encChunks := [1],
          cipherBytes := 1, writeChunks := [1], fileName := ['f'], finalSize := 1,
          finishedAtTime := 2 } [] = [] := by
  have h := c6_backup_precondition ['a', 'a'] ['a', 'a'] 0
    { totalFiles := 1, tarLines := 1, archiveBytes := 1, encChunks := [1],
      cipherBytes := 1, writeChunks := [1], fileName := ['f'], finalSize := 1,
      finishedAtTime := 2 } none [] ['d'] true (by decide) (by decide)
  exact ⟨h.1, h.2.1⟩

/-! ## `src/lib/attachmentStore.ts` -/

/-- `ATTACHMENT_SCAN_MODE` configuration values. -/
inductive ScanMode
  | off
  | optionalMode
  | requiredMode
deriving DecidableEq

/-- The `AntivirusScanResult` record of the source. -/
structure AntivirusScanResult where
  ok : Bool
  clean : Bool
  skipped : Bool
  reason : String
deriving DecidableEq

/-- What the spawned scanner process does: fail to spawn, or exit with a
code (`none` models a `null` exit code from a killed process) and some
stderr output. -/
inductive ScanExec
  | spawnError (msg : String)
  | exited (code : Option Int) (stderr : String)
deriving DecidableEq

/-- The environment `runClamAvScan` observes: the configured mode, whether
`commandExists` resolves the scanner binary, and the process behavior. -/
structure ScanEnv where
  mode : ScanMode
  scannerResolvable : Bool
  exec : ScanExec
deriving DecidableEq

/-- `runClamAvScan`: mode `off` short-circuits; an unresolvable binary is
fatal only under `required`; exit code 0 is clean, exit code 1 is
infected, and every other exit code or spawn error is fatal under
`required` and skipped/clean under `optional`. -/
def runClamAvScan (env : ScanEnv) (scanner : String) : AntivirusScanResult :=
  if env.mode = .off then
    { ok := true, clean := true, skipped := true, reason := "scan_off" }
  else if env.scannerResolvable = false then
    if env.mode = .requiredMode then
      { ok := false, clean := false, skipped := false, reason := scanner ++ "_not_found" }
    else
      { ok := true, clean := true, skipped := true, reason := scanner ++ "_not_found" }
  else
    match env.exec with
    | .spawnError msg =>
      if env.mode = .requiredMode then
        { ok := false, clean := false, skipped := false,
          reason := if msg = "" then "scan_error" else msg }
      else
        { ok := true, clean := true, skipped := true,
          reason := if msg = "" then "scan_error" else msg }
    | .exited code stderr =>
      if code = some 0 then
        { ok := true, clean := true, skipped := false, reason := "clean" }
      else if code = some 1 then
        { ok := true, clean := false, skipped := false, reason := "infected" }
      else if env.mode = .requiredMode then
        { ok := false, clean := false, skipped := false,
          reason := if stderr.trim = "" then "scan_failed" else stderr.trim }
      else
        { ok := true, clean := true, skipped := true,
          reason := if stderr.trim = "" then "scan_failed" else stderr.trim }

/-- C7: the antivirus policy matrix of `runClamAvScan`. Mode `off` always
yields clean/skipped without consulting the scanner; `optional` treats an
unresolvable binary, a spawn error, or an exit code other than 0/1 as
clean/skipped; `required` treats each of those as a fatal scan failure;
exit code 1 (infected) yields not-clean (fatal downstream) whenever the
scanner runs; exit code 0 yields clean. -/
theorem c7_antivirus_policy_matrix (env : ScanEnv) (scanner : String) :
    (env.mode = .off →
      runClamAvScan env scanner =
        { ok := true, clean := true, skipped := true, reason := "scan_off" }) ∧
    (env.mode = .optionalMode → env.scannerResolvable = false →
      ((runClamAvScan env scanner).ok = true ∧ (runClamAvScan env scanner).clean = true ∧
        (runClamAvScan env scanner).skipped = true)) ∧
    (∀ msg, env.mode = .optionalMode → env.scannerResolvable = true →
      env.exec = .spawnError msg →
      ((runClamAvScan env scanner).ok = true ∧ (runClamAvScan env scanner).clean = true ∧
        (runClamAvScan env scanner).skipped = true)) ∧
    (∀ code stderr, env.mode = .optionalMode → env.scannerResolvable = true →
      env.exec = .exited code stderr → code ≠ some 0 → code ≠ some 1 →
      ((runClamAvScan env scanner).ok = true ∧ (runClamAvScan env scanner).clean = true ∧
        (runClamAvScan env scanner).skipped = true)) ∧
    (env.mode = .requiredMode → env.scannerResolvable = false →
      (runClamAvScan env scanner).ok = false) ∧
    (∀ msg, env.mode = .requiredMode → env.scannerResolvable = true →
      env.exec = .spawnError msg → (runClamAvScan env scanner).ok = false) ∧
    (∀ code stderr, env.mode = .requiredMode → env.scannerResolvable = true →
      env.exec = .exited code stderr → code ≠ some 0 → code ≠ some 1 →
      (runClamAvScan env scanner).ok = false) ∧
    (∀ stderr, env.mode ≠ .off → env.scannerResolvable = true →
      env.exec = .exited (some 1) stderr →
      ((runClamAvScan env scanner).ok = true ∧ (runClamAvScan env scanner).clean = false ∧
        (runClamAvScan env scanner).skipped = false)) ∧
    (∀ stderr, env.mode ≠ .off → env.scannerResolvable = true →
      env.exec = .exited (some 0) stderr →
      runClamAvScan env scanner =
        { ok := true, clean := true, skipped := false, reason := "clean" }) := by
  obtain ⟨mode, resolvable, exec⟩ := env
  refine ⟨?_, ?_, ?_, ?_, ?_, ?_, ?_, ?_, ?_⟩
  · rintro rfl
    rfl
  · rintro rfl rfl
    refine ⟨rfl, rfl, rfl⟩
  · rintro msg rfl rfl rfl
    simp [runClamAvScan]
  · rintro code stderr rfl rfl rfl h0 h1
    simp [runClamAvScan, h0, h1]
  · rintro rfl rfl
    rfl
  · rintro msg rfl rfl rfl
    unfold runClamAvScan
    rw [if_neg (by simp), if_neg (by simp)]
    dsimp only
    rw [if_pos rfl]
  · rintro code stderr rfl rfl rfl h0 h1
    unfold runClamAvScan
    rw [if_neg (by simp), if_neg (by simp)]
    dsimp only
    rw [if_neg h0, if_neg h1, if_pos rfl]
  · rintro stderr hmode rfl rfl
    unfold runClamAvScan
    rw [if_neg hmode, if_neg (by simp)]
    dsimp only
    rw [if_neg (by simp), if_pos rfl]
    exact ⟨rfl, rfl, rfl⟩
  · rintro stderr hmode rfl rfl
    unfold runClamAvScan
    rw [if_neg hmode, if_neg (by simp)]
    dsimp only
    rw [if_pos rfl]

/-- C7 (witness): three concrete cells of the matrix — `off` skips,
`optional` with a missing binary skips, `required` with a missing binary
is fatal, and an infected exit code 1 is not clean. -/
theorem c7_antivirus_policy_matrix_witness :
    runClamAvScan ⟨.off, false, .exited (some 2) ""⟩ "clamscan" =
        { ok := true, clean := true, skipped := true, reason := "scan_off" } ∧
      (runClamAvScan ⟨.optionalMode, false, .exited (some 2) ""⟩ "clamscan").ok = true ∧
      (runClamAvScan ⟨.requiredMode, false, .exited (some 2) ""⟩ "clamscan").ok = false ∧
      (runClamAvScan ⟨.requiredMode, true, .exited (some 1) ""⟩ "clamscan").clean = false :=
  ⟨(c7_antivirus_policy_matrix ⟨.off, false, .exited (some 2) ""⟩ "clamscan").1 rfl,
    ((c7_antivirus_policy_matrix ⟨.optionalMode, false, .exited (some 2) ""⟩ "clamscan").2.1
      rfl rfl).1,
    (c7_antivirus_policy_matrix ⟨.requiredMode, false, .exited (some 2) ""⟩
      "clamscan").2.2.2.2.1 rfl rfl,
    ((c7_antivirus_policy_matrix ⟨.requiredMode, true, .exited (some 1) ""⟩
      "clamscan").2.2.2.2.2.2.2.1 "" (by simp) rfl rfl).2.1⟩

/-- `AttachmentScanStatus`. -/
inductive AttScanStatus
  | clean
  | skipped
  | failed
deriving DecidableEq

/-- The persisted `PageAttachment` record. -/
structure PageAttachment where
  id : JSStr
  slug : JSStr
  storageName : JSStr
  originalName : JSStr
  mimeType : JSStr
  extension : JSStr
  sizeBytes : Nat
  sha256 : JSStr
  uploadedAt : Nat
  uploadedById : JSStr
  uploadedByUsername : JSStr
  uploadedByDisplayName : JSStr
  scanStatus : AttScanStatus
  scanner : String
deriving DecidableEq

/-- Filesystem-plus-metadata world of the attachment store: existing
regular files with their contents, and the persisted attachment list. -/
structure WorldM where
  files : List (JSStr × Bytes)
  store : List PageAttachment
deriving DecidableEq

/-- The `FinalizeAttachmentInput` record. -/
structure FinalizeInputM where
  slug : JSStr
  quarantinePath : JSStr
  originalName : JSStr
  mimeType : JSStr
  uploadedById : JSStr
  uploadedByUsername : JSStr
  uploadedByDisplayName : JSStr

/-- The `FinalizeAttachmentResult` record. -/
structure FinalizeResultM where
  ok : Bool
  attachment : Option PageAttachment := none
  errMsg : Option JSStr := none
deriving DecidableEq

/-- A finalize call either returns a result record or (only if the
internally generated storage name failed its own basename check, which
never happens for generated names) rejects with an uncaught error. -/
inductive FinalizeOutcome
  | returned (res : FinalizeResultM)
  | threw (msg : JSStr)
deriving DecidableEq

/-- `true` exactly when the call returned `{ok := false}`. -/
def FinalizeOutcome.isFailure : FinalizeOutcome → Bool
  | .returned r => !r.ok
  | .threw _ => false

/-- The error message of a returned result. -/
def FinalizeOutcome.errOf : FinalizeOutcome → Option JSStr
  | .returned r => r.errMsg
  | .threw m => some m

/-- The attachment of a returned result. -/
def FinalizeOutcome.attachOf : FinalizeOutcome → Option PageAttachment
  | .returned r => r.attachment
  | .threw _ => none

/-- `normalizeSlug`: trim and lower-case. -/
def normalizeSlug (s : JSStr) : JSStr := (jsTrim s).map Char.toLower

/-- The character class kept by `FILE_NAME_SANITIZE_PATTERN`
(`[a-zA-Z0-9._-]`). -/
def allowedFileChar (c : Char) : Bool :=
  ('a' ≤ c && c ≤ 'z') || ('A' ≤ c && c ≤ 'Z') || ('0' ≤ c && c ≤ '9') ||
    c = '.' || c = '_' || c = '-'

/-- `replace(/_+/g, "_")`: collapse runs of underscores. -/
def collapseUnderscores : JSStr → JSStr
  | [] => []
  | c :: rest =>
    let r := collapseUnderscores rest
    if c = '_' then
      match r with
      | '_' :: _ => r
      | _ => c :: r
    else c :: r

/-- `replace(/^_+|_+$/g, "")`: strip leading and trailing underscores. -/
def stripUnderscores (s : JSStr) : JSStr :=
  ((s.dropWhile (· = '_')).reverse.dropWhile (· = '_')).reverse

/-- `sanitizeOriginalFileName`: basename of the trimmed name, disallowed
characters replaced by `_`, underscore runs collapsed, edges stripped,
capped at 180 characters, falling back to `"datei"`. -/
def sanitizeOriginalFileName (name : JSStr) : JSStr :=
  let base := basename (jsTrim name)
  let cleaned := stripUnderscores (collapseUnderscores
    (base.map (fun c => if allowedFileChar c then c else '_')))
  let sliced := cleaned.take 180
  if sliced = [] then "datei".toList else sliced

/-- `path.extname` on a basename: the suffix from the last dot, empty for
dotless names and leading-dot names. -/
def extnameM (s : JSStr) : JSStr :=
  let pre := s.reverse.takeWhile (fun c => c ≠ '.')
  if pre.length = s.length then []
  else if s.length - pre.length - 1 = 0 then []
  else '.' :: pre.reverse

/-- `normalizeExtension`: extname, leading dot removed, trimmed,
lower-cased. -/
def normalizeExtension (fileName : JSStr) : JSStr :=
  let e := extnameM fileName
  let stripped := match e with
    | '.' :: r => r
    | r => r
  (jsTrim stripped).map Char.toLower

/-- `ALLOWED_EXTENSION_TO_MIME`. -/
def allowedMimes (ext : JSStr) : Option (List JSStr) :=
  if ext = "pdf".toList then
    some (["application/pdf", "application/x-pdf", "application/octet-stream"].map
      String.toList)
  else if ext = "txt".toList then
    some (["text/plain", "application/octet-stream"].map String.toList)
  else if ext = "md".toList then
    some (["text/markdown", "text/plain", "application/octet-stream"].map String.toList)
  else if ext = "csv".toList then
    some (["text/csv", "application/csv", "text/plain", "application/octet-stream"].map
      String.toList)
  else if ext = "docx".toList then
    some (["application/vnd.openxmlformats-officedocument.wordprocessingml.document",
      "application/zip", "application/octet-stream"].map String.toList)
  else if ext = "xlsx".toList then
    some (["application/vnd.openxmlformats-officedocument.spreadsheetml.sheet",
      "application/zip", "application/octet-stream"].map String.toList)
  else if ext = "pptx".toList then
    some (["application/vnd.openxmlformats-officedocument.presentationml.presentation",
      "application/zip", "application/octet-stream"].map String.toList)
  else none

/-- `%PDF-` magic. -/
def looksLikePdf (chunk : Bytes) : Bool :=
  [0x25, 0x50, 0x44, 0x46, 0x2D].isPrefixOf chunk

/-- ZIP local-file-header magics. -/
def looksLikeZip (chunk : Bytes) : Bool :=
  decide (chunk.length ≥ 4) &&
    (decide (chunk.take 4 = [0x50, 0x4B, 0x03, 0x04]) ||
     decide (chunk.take 4 = [0x50, 0x4B, 0x05, 0x06]) ||
     decide (chunk.take 4 = [0x50, 0x4B, 0x07, 0x08]))

/-- `looksLikeText`: no NUL byte in the first 4096 content bytes (the
additional regex probe on the decoded string can only fire on a NUL byte
as well). -/
def looksLikeText (content : Bytes) : Bool :=
  decide (0 ∉ content.take 4096)

/-- `validateMimeAndMagic`: extension table lookup, declared-MIME check,
then the magic probe for the extension family; `none` means valid. -/
def validateMimeAndMagic (content : Bytes) (extension mime : JSStr) : Option JSStr :=
  match allowedMimes extension with
  | none => some "Dateityp nicht erlaubt.".toList
  | some mimes =>
    let nm := ((jsTrim (if mime = [] then "application/octet-stream".toList else mime)).map
      Char.toLower)
    if ¬ (nm ∈ mimes) then some "MIME-Typ nicht erlaubt.".toList
    else
      let magic := content.take 16
      if extension = "pdf".toList ∧ looksLikePdf magic = false then
        some "Datei ist kein valides PDF.".toList
      else if (extension = "docx".toList ∨ extension = "xlsx".toList ∨
          extension = "pptx".toList) ∧ looksLikeZip magic = false then
        some "Office-Datei hat keine valide ZIP-Signatur.".toList
      else if (extension = "txt".toList ∨ extension = "md".toList ∨
          extension = "csv".toList) ∧ looksLikeText content = false then
        some "Textdatei enthaelt unerlaubte Binaerdaten.".toList
      else none

/-- `resolveQuarantinePath` of `attachmentStore.ts`: basename of the
trimmed input; an empty basename throws, and `safeResolve` of
`fileStore.ts` throws when the resolved name escapes the quarantine
directory (the one such basename is `".."`). Both throws are caught by
`finalizeAttachmentFromQuarantine` and surface as the
invalid-upload-context error with no cleanup, which `none` models. -/
def resolveQuarantinePathM (quarantineDir inputPath : JSStr) : Option JSStr :=
  let name := basename (jsTrim inputPath)
  if name = [] then none else safeResolve quarantineDir name

theorem resolveQuarantinePathM_dotdot (quarantineDir : JSStr) :
    resolveQuarantinePathM quarantineDir ("..".toList) = none := by
  have h : basename (jsTrim ("..".toList)) = "..".toList := by decide
  simp only [resolveQuarantinePathM, safeResolve, h]
  rw [if_neg (by decide), if_neg (by decide)]
  split
  · rfl
  · next hc => exact absurd trivial hc

/-- File lookup (`fs.stat` + read): `none` when the path does not exist. -/
def lookupFile (files : List (JSStr × Bytes)) (p : JSStr) : Option Bytes :=
  (files.find? (fun e => decide (e.1 = p))).map (fun e => e.2)

/-- `removeFile` of `fileStore.ts` on the content-carrying filesystem
(same in-root identity as `removeFileFS`; a missing path is a no-op). -/
def deleteFileW (w : WorldM) (p : JSStr) : WorldM :=
  { w with files := w.files.filter (fun e => decide (e.1 ≠ p)) }

/-- `resolveAttachmentPath` of `attachmentStore.ts`: the storage name
must be its own basename (else the source throws), then it goes through
`safeResolve` of `fileStore.ts` into the attachments directory. -/
def resolveAttachmentPathM (attachDir storageName : JSStr) : Option JSStr :=
  let n := basename (jsTrim storageName)
  if n = [] ∨ ¬ (n = jsTrim storageName) then none
  else safeResolve attachDir n

/-- `finalizeAttachmentFromQuarantine`: the gate cascade of the source.
`storageBase` stands for the generated `${Date.now()}-${uuid}` part of the
storage name, `newId` for the generated record id, `nowT` for the upload
instant and `hashFn` for the streaming SHA-256. A quarantine path that
fails to resolve (empty basename, or the boundary throw on `".."`) is
caught and answered with the invalid-upload-context error without
touching anything; every later gate failure deletes the quarantine file
and returns `{ok := false}` with a message; only the final step persists
a record. -/
def finalizeAttachmentFromQuarantine (w : WorldM) (input : FinalizeInputM)
    (scanEnv : ScanEnv) (scanner : String) (quarantineDir attachDir storageBase newId : JSStr)
    (nowT : Nat) (hashFn : Bytes → JSStr) : FinalizeOutcome × WorldM :=
  match resolveQuarantinePathM quarantineDir input.quarantinePath with
  | none =>
    (.returned { ok := false, errMsg := some "Ungültiger Upload-Kontext.".toList }, w)
  | some qPath =>
    let slug := normalizeSlug input.slug
    let originalName := sanitizeOriginalFileName input.originalName
    let mime := (jsTrim input.mimeType).map Char.toLower
    let uploadedById := jsTrim input.uploadedById
    let uploadedByUsername := (jsTrim input.uploadedByUsername).map Char.toLower
    let dn0 := jsTrim input.uploadedByDisplayName
    let uploadedByDisplayName := if dn0 = [] then uploadedByUsername else dn0
    if slug = [] ∨ uploadedById = [] ∨ uploadedByUsername = [] then
      (.returned { ok := false, errMsg := some "Ungültiger Upload-Kontext.".toList },
        deleteFileW w qPath)
    else
      let extension := normalizeExtension originalName
      if extension = [] ∨ (allowedMimes extension).isNone then
        (.returned { ok := false, errMsg := some "Dateityp nicht erlaubt.".toList },
          deleteFileW w qPath)
      else
        match lookupFile w.files qPath with
        | none =>
          (.returned { ok := false, errMsg := some "Leere oder ungültige Datei.".toList },
            deleteFileW w qPath)
        | some content =>
          if content.length < 1 then
            (.returned { ok := false, errMsg := some "Leere oder ungültige Datei.".toList },
              deleteFileW w qPath)
          else
            match validateMimeAndMagic content extension mime with
            | some e => (.returned { ok := false, errMsg := some e }, deleteFileW w qPath)
            | none =>
              let scan := runClamAvScan scanEnv scanner
              if scan.ok = false then
                (.returned
                  { ok := false
                    errMsg := some "Virenscan fehlgeschlagen.".toList },
                  deleteFileW w qPath)
              else if scan.clean = false then
                (.returned
                  { ok := false
                    errMsg := some "Virenscan hat potenziell schädliche Datei erkannt.".toList },
                  deleteFileW w qPath)
              else
                match resolveAttachmentPathM attachDir (storageBase ++ '.' :: extension) with
                | none => (.threw "Ungültiger Attachment-Pfad.".toList, w)
                | some finalPath =>
                  let record : PageAttachment :=
                    { id := newId
                      slug := slug
                      storageName := storageBase ++ '.' :: extension
                      originalName := originalName
                      mimeType := mime
                      extension := extension
                      sizeBytes := content.length
                      sha256 := hashFn content
                      uploadedAt := nowT
                      uploadedById := uploadedById
                      uploadedByUsername := uploadedByUsername
                      uploadedByDisplayName := uploadedByDisplayName
                      scanStatus := if scan.skipped then .skipped else .clean
                      scanner := if scan.skipped then "none" else scanner }
                  (.returned { ok := true, attachment := some record },
                    { files := (deleteFileW w qPath).files ++ [(finalPath, content)],
                      store := w.store ++ [record] })

theorem lookupFile_deleteFileW (w : WorldM) (q : JSStr) :
    lookupFile (deleteFileW w q).files q = none := by
  unfold lookupFile deleteFileW
  have h : (List.filter (fun e => decide (e.1 ≠ q)) w.files).find?
      (fun e => decide (e.1 = q)) = none := by
    rw [List.find?_eq_none]
    intro e he
    have hne := List.of_mem_filter he
    simp only [ne_eq, decide_eq_true_eq] at hne ⊢
    exact hne
  dsimp only
  rw [h]
  rfl

/-- C8: whenever `finalizeAttachmentFromQuarantine` returns `{ok:false}`
(any gate failed), the metadata store is unchanged, an error message is
present, no attachment record is attached, and — whenever the quarantine
path resolved to a file path at all — that file has been deleted; an
unresolvable quarantine path (empty basename, or the `safeResolve`
boundary throw on basename `".."`) leaves the world untouched (there is
no file to delete). -/
theorem c8_failure_cleanup (w : WorldM) (input : FinalizeInputM) (scanEnv : ScanEnv)
    (scanner : String) (qdir adir sb nid : JSStr) (nowT : Nat) (hashFn : Bytes → JSStr)
    (out : FinalizeOutcome) (w' : WorldM)
    (heq : finalizeAttachmentFromQuarantine w input scanEnv scanner qdir adir sb nid nowT
      hashFn = (out, w'))
    (hfail : out.isFailure = true) :
    w'.store = w.store ∧ out.errOf ≠ none ∧ out.attachOf = none ∧
      (∀ q, resolveQuarantinePathM qdir input.quarantinePath = some q →
        w' = deleteFileW w q ∧ lookupFile w'.files q = none) ∧
      (resolveQuarantinePathM qdir input.quarantinePath = none → w' = w) := by
  unfold finalizeAttachmentFromQuarantine at heq
  cases hres : resolveQuarantinePathM qdir input.quarantinePath with
  | none =>
    rw [hres] at heq
    injection heq with h1 h2
    subst h1
    subst h2
    refine ⟨rfl, by simp [FinalizeOutcome.errOf], by simp [FinalizeOutcome.attachOf],
      ?_, fun _ => rfl⟩
    intro q hq
    exact absurd hq (by simp)
  | some qPath =>
    rw [hres] at heq
    dsimp only at heq
    have hclean : ∀ msgl : JSStr,
        (FinalizeOutcome.returned { ok := false, errMsg := some msgl }, deleteFileW w qPath) =
          (out, w') →
        w'.store = w.store ∧ out.errOf ≠ none ∧ out.attachOf = none ∧
        (∀ q, (some qPath : Option JSStr) = some q →
          w' = deleteFileW w q ∧ lookupFile w'.files q = none) ∧
        ((some qPath : Option JSStr) = none → w' = w) := by
      intro msgl heq2
      injection heq2 with h1 h2
      subst h1
      subst h2
      refine ⟨rfl, by simp [FinalizeOutcome.errOf], by simp [FinalizeOutcome.attachOf],
        ?_, ?_⟩
      · intro q hq
        injection hq with hq
        subst hq
        exact ⟨rfl, lookupFile_deleteFileW w qPath⟩
      · intro hcon
        exact absurd hcon (by simp)
    split at heq
    · exact hclean _ heq
    · split at heq
      · exact hclean _ heq
      · split at heq
        · exact hclean _ heq
        · next content hlook =>
          split at heq
          · exact hclean _ heq
          · split at heq
            · next e hvalid => exact hclean _ heq
            · split at heq
              · exact hclean _ heq
              · split at heq
                · exact hclean _ heq
                · split at heq
                  · injection heq with h1 h2
                    subst h1
                    simp [FinalizeOutcome.isFailure] at hfail
                  · injection heq with h1 h2
                    subst h1
                    simp [FinalizeOutcome.isFailure] at hfail

/-- C8 (witness): a concrete rejected upload (disallowed `.exe`
extension): the store stays empty, an error is reported, and the
quarantine file is gone afterwards. -/
theorem c8_failure_cleanup_witness :
    ((finalizeAttachmentFromQuarantine
        { files := [(joinPath ['q'] ("f.exe".toList), [1, 2])], store := [] }
        { slug := ['s'], quarantinePath := "f.exe".toList, originalName := "f.exe".toList,
          mimeType := "application/octet-stream".toList, uploadedById := ['u'],
          uploadedByUsername := ['u'], uploadedByDisplayName := ['u'] }
        ⟨.off, false, .exited (some 0) ""⟩ "clamscan" ['q'] ['a'] ("1-ab".toList) ['i'] 0
        (fun _ => [])).2).store = [] ∧
      ((finalizeAttachmentFromQuarantine
        { files := [(joinPath ['q'] ("f.exe".toList), [1, 2])], store := [] }
        { slug := ['s'], quarantinePath := "f.exe".toList, originalName := "f.exe".toList,
          mimeType := "application/octet-stream".toList, uploadedById := ['u'],
          uploadedByUsername := ['u'], uploadedByDisplayName := ['u'] }
        ⟨.off, false, .exited (some 0) ""⟩ "clamscan" ['q'] ['a'] ("1-ab".toList) ['i'] 0
        (fun _ => [])).1).errOf ≠ none ∧
      lookupFile ((finalizeAttachmentFromQuarantine
        { files := [(joinPath ['q'] ("f.exe".toList), [1, 2])], store := [] }
        { slug := ['s'], quarantinePath := "f.exe".toList, originalName := "f.exe".toList,
          mimeType := "application/octet-stream".toList, uploadedById := ['u'],
          uploadedByUsername := ['u'], uploadedByDisplayName := ['u'] }
        ⟨.off, false, .exited (some 0) ""⟩ "clamscan" ['q'] ['a'] ("1-ab".toList) ['i'] 0
        (fun _ => [])).2).files (joinPath ['q'] ("f.exe".toList)) = none := by
  have h := c8_failure_cleanup
    { files := [(joinPath ['q'] ("f.exe".toList), [1, 2])], store := [] }
    { slug := ['s'], quarantinePath := "f.exe".toList, originalName := "f.exe".toList,
      mimeType := "application/octet-stream".toList, uploadedById := ['u'],
      uploadedByUsername := ['u'], uploadedByDisplayName := ['u'] }
    ⟨.off, false, .exited (some 0) ""⟩ "clamscan" ['q'] ['a'] ("1-ab".toList) ['i'] 0
    (fun _ => []) _ _ rfl (by decide)
  have h2 := h.2.2.2.1 (joinPath ['q'] ("f.exe".toList)) (by decide)
  exact ⟨h.1, h.2.1, h2.2⟩
